import Mathlib

/-!
Shallow embedding of the py2048 core (`py2048/grid.py`, `py2048/cell.py`,
`py2048/__init__.py`) and proofs about the frozen claims.

Modelling conventions:
* A `Cell` is identified by its `Point` (Python `Cell.__eq__`/`__hash__` use
  only the point); its mutable `number` and `_lock` fields become the total
  functions `numbers : Point → Nat` and `locks : Point → Bool` of the grid
  state (off-board points are never written and stay at their defaults).
* Python exceptions become `Except Err`; a raised exception is an `Except.error`.
* Randomness (`random.sample`, `random.choice`) is replaced by explicit oracle
  arguments; each function validates that the oracle satisfies the exact
  postcondition of the library call it stands for (a size-`k` duplicate-free
  sample of the population, a member of the choice tuple) and fails with
  `Err.badOracle` otherwise.  `Err.badOracle` is a modelling artifact with no
  Python counterpart; every other error constructor names a Python exception.
* `while True` loops (`Grid._pivot`) are given fuel `side`, which is proved
  sufficient for on-board cells.
-/

namespace Py2048

/-- `Point`: pair of non-negative integers (py2048 `Point`, a namedtuple of
two ints validated by `check_int`). -/
structure Point where
  x : Nat
  y : Nat
deriving DecidableEq, Repr

/-- Lexicographic order on points, the order of `sorted(self.mapping.keys())`
used by `BaseGameGrid.keys`. -/
def ptLt (p q : Point) : Prop :=
  p.x < q.x ∨ (p.x = q.x ∧ p.y < q.y)

instance (p q : Point) : Decidable (ptLt p q) := by
  unfold ptLt; infer_instance

/-- The four `Directions`, in the WASD declaration order. -/
inductive Dir where
  | up
  | left
  | down
  | right
deriving DecidableEq, Repr

/-- `Grid._SHIFTS`: the x-y displacement of each direction. -/
def shift : Dir → Int × Int
  | .left => (-1, 0)
  | .right => (1, 0)
  | .down => (0, 1)
  | .up => (0, -1)

/-- The Python exceptions raised by the modelled code. -/
inductive Err where
  | valueError
  | keyError
  | indexError
  | base2048
  | invalidCellInt
  | badOracle
deriving DecidableEq, Repr

/-- A `Snapshot`: a Python dict `Point -> int`, as an association list in the
dict's iteration (insertion) order. -/
abbrev Snapshot := List (Point × Nat)

/-- The mutable state of a `Grid` instance.  `side` is the board dimension,
`numbers`/`locks` the `Cell` fields, `emptyCells` the incrementally maintained
`empty_cells` set (as a duplicate-free list), and `history`, `attempt`,
`cycle`, `score` the remaining instance attributes. -/
structure Grid where
  side : Nat
  numbers : Point → Nat
  locks : Point → Bool
  emptyCells : List Point
  history : List Snapshot
  attempt : Nat
  cycle : Nat
  score : Nat

/-- The points of a `side × side` board in the sorted-key order
`(0,0),(0,1),…` (x ascending, then y ascending). -/
def allPoints (side : Nat) : List Point :=
  (List.range side).flatMap (fun x => (List.range side).map (fun y => Point.mk x y))

/-- A point that indexes an actual cell of the grid. -/
def OnBoard (g : Grid) (p : Point) : Prop :=
  p.x < g.side ∧ p.y < g.side

instance (g : Grid) (p : Point) : Decidable (OnBoard g p) := by
  unfold OnBoard; infer_instance

/-- `Grid._set_cell`: assign `n` to the cell at `p` and update `empty_cells`
(`discard` when the number is positive, `add` when it is zero). -/
def setCell (g : Grid) (p : Point) (n : Nat) : Grid :=
  { g with
    numbers := fun q => if q = p then n else g.numbers q
    emptyCells :=
      if n ≠ 0 then g.emptyCells.filter (fun q => q != p)
      else g.emptyCells.insert p }

/-- `Grid._neighbor`: the adjacent cell in direction `d`, or `none` when the
shifted coordinate is negative (`NegativeIntegerError`) or off-board
(`KeyError`).

Modelled from the spec: `cell.point + self._SHIFTS[to]` uses the `Point`
addition of the missing `py2048.core` module; per the spec it "computes the
adjacent coordinate by applying a fixed per-direction displacement" and the
result is out of bounds when "negative or beyond the grid". -/
def neighbor (g : Grid) (p : Point) (d : Dir) : Option Point :=
  let s := shift d
  let nx : Int := (p.x : Int) + s.1
  let ny : Int := (p.y : Int) + s.2
  if 0 ≤ nx ∧ 0 ≤ ny then
    let q : Point := ⟨nx.toNat, ny.toNat⟩
    if q.x < g.side ∧ q.y < g.side then some q else none
  else none

/-- The `while True` loop of `Grid._pivot`, with fuel.  `current` and `last`
are the loop variables, `target` is `cell.number`.  `none` means the fuel ran
out, which `pivotAux_eq_spec` shows cannot happen with fuel `side` from an
on-board cell. -/
def pivotAux (g : Grid) (d : Dir) (target : Nat) : Nat → Point → Point → Option Point
  | 0, _, _ => none
  | Nat.succ fuel, current, last =>
    match neighbor g current d with
    | none => some last
    | some next =>
      if g.numbers next = 0 then pivotAux g d target fuel next next
      else if g.numbers next = target ∧ g.locks next = false then some next
      else some last

/-- `Grid._pivot`: the cell that `c` will interact with when moved in
direction `d`. -/
def pivot (g : Grid) (c : Point) (d : Dir) : Option Point :=
  pivotAux g d (g.numbers c) g.side c c

/-- The chain of neighbors walked from `p` in direction `d` (with fuel),
i.e. the successive values of `current` in `Grid._pivot`. -/
def rayAux (g : Grid) (d : Dir) : Nat → Point → List Point
  | 0, _ => []
  | Nat.succ fuel, p =>
    match neighbor g p d with
    | none => []
    | some q => q :: rayAux g d fuel q

/-- The full neighbor chain from `c` in direction `d`. -/
def ray (g : Grid) (c : Point) (d : Dir) : List Point :=
  rayAux g d g.side c

/-- Written from the claim's words, for comparison with `pivot`: on the walk
`r` away from `c`, the nearest non-empty unlocked cell whose number equals
`t` if it is the first non-empty cell of the walk; otherwise the farthest
empty cell reached before the walk was blocked; otherwise `c` itself. -/
def pivotSpecList (g : Grid) (t : Nat) (c : Point) (r : List Point) : Point :=
  match (r.dropWhile (fun q => g.numbers q == 0)).head? with
  | some q =>
      if g.numbers q = t ∧ g.locks q = false then q
      else (r.takeWhile (fun q => g.numbers q == 0)).getLastD c
  | none => (r.takeWhile (fun q => g.numbers q == 0)).getLastD c

/-- The claim's description of `Grid._pivot`, over the neighbor walk of `c`. -/
def pivotSpec (g : Grid) (c : Point) (d : Dir) : Point :=
  pivotSpecList g (g.numbers c) c (ray g c d)

/-- Distance from `p` to the board edge in direction `d`; bounds the length
of the neighbor walk. -/
def edgeDist (g : Grid) (d : Dir) (p : Point) : Nat :=
  match d with
  | .left => p.x
  | .right => g.side - 1 - p.x
  | .up => p.y
  | .down => g.side - 1 - p.y

/-- `Grid._move_cell`: try to move the cell at `c` in direction `d`; returns
whether movement occurred together with the new state. -/
def moveCell (g : Grid) (c : Point) (d : Dir) : Bool × Grid :=
  if g.numbers c = 0 then (false, g)
  else
    match pivot g c d with
    | none => (false, g)
    | some piv =>
      if piv = c then (false, g)
      else
        let newNumber := g.numbers c + g.numbers piv
        let g1 :=
          if g.numbers piv ≠ 0 then
            { g with
              locks := fun q => if q = piv then true else g.locks q
              score := g.score + newNumber }
          else g
        let g2 := setCell g1 c 0
        (true, setCell g2 piv newNumber)

/-- Column `x` of the board in sorted-key order: `(x,0),(x,1),…` (Python
`self[x]`). -/
def column (side x : Nat) : List Point :=
  (List.range side).map (fun y => Point.mk x y)

/-- Row `y` of the board in sorted-key order: `(0,y),(1,y),…` (Python
`self[..., y]`). -/
def row (side y : Nat) : List Point :=
  (List.range side).map (fun x => Point.mk x y)

/-- The flattened cell traversal order of `Grid.drag`:
`_vectors_from_Directions` picks columns left-to-right for LEFT,
right-to-left for RIGHT, rows top-to-bottom for UP, bottom-to-top for DOWN. -/
def dragOrder (side : Nat) (d : Dir) : List Point :=
  match d with
  | .left => (List.range side).flatMap (fun x => column side x)
  | .right => (List.range side).reverse.flatMap (fun x => column side x)
  | .up => (List.range side).flatMap (fun y => row side y)
  | .down => (List.range side).reverse.flatMap (fun y => row side y)

/-- The move loop of `Grid.drag`: apply `moveCell` to every cell in order,
accumulating `something_moved`. -/
def dragMoves (g : Grid) (d : Dir) : Bool × Grid :=
  (dragOrder g.side d).foldl
    (fun acc c => (acc.1 || (moveCell acc.2 c d).1, (moveCell acc.2 c d).2))
    (false, g)

/-- `utils.either_0_power2`: whether `n` is 0 or a power of two, by the
bit trick `not n & (n - 1)` (identical on `Nat`: `0 - 1 = 0`). -/
def either0Power2 (n : Nat) : Bool :=
  n &&& (n - 1) == 0

/-- `Grid.NUMBERS`: the initial list of valid goals, `2^1 .. 2^11`. -/
def NUMBERS : List Nat :=
  (List.range 11).map (fun k => 2 ^ (k + 1))

/-- `Grid._AUTO_NUMBERS = NUMBERS[:-1]`. -/
def AUTO_NUMBERS : List Nat :=
  NUMBERS.dropLast

/-- `Grid.SEEDING_VALUES`. -/
def SEEDING_VALUES : List Nat := [2, 4]

/-- `Grid.STARTING_AMOUNT`. -/
def STARTING_AMOUNT : Nat := 2

/-- The current game state as a snapshot: `{point: cell.number for point,
cell in self.items()}`, in sorted-key order. -/
def boardSnapshot (g : Grid) : Snapshot :=
  (allPoints g.side).map (fun p => (p, g.numbers p))

/-- `Grid._check_snapshot`: `ValueError` unless some value is positive. -/
def checkSnapshot (s : Snapshot) : Except Err Unit :=
  if s.any (fun pv => pv.2 != 0) then .ok () else .error .valueError

/-- `Grid.store_snapshot`: validate and append a snapshot (the current state
when `s? = none`). -/
def storeSnapshot (g : Grid) (s? : Option Snapshot) : Except Err Grid :=
  let s := match s? with
    | none => boardSnapshot g
    | some s => s
  match checkSnapshot s with
  | .error e => .error e
  | .ok _ => .ok { g with history := g.history ++ [s] }

/-- The seeding loop of `Grid.seed`: for each sampled cell, raise
`Base2048Error` if it is non-zero, otherwise assign it its drawn value. -/
def seedLoop : Grid → List (Point × Nat) → Except Err Grid
  | g, [] => .ok g
  | g, (p, v) :: rest =>
    if g.numbers p ≠ 0 then .error .base2048
    else seedLoop (setCell g p v) rest

/-- `Grid.seed`: seed `amount` randomly chosen empty cells.  `picks` stands
for the result of `random.sample(self.empty_cells, amount)` (hence the
`ValueError` when `amount` exceeds the population, and the sample
postcondition checks), `vals` for the successive
`random.choice(SEEDING_VALUES)` draws. -/
def Grid.seed (g : Grid) (amount : Nat) (picks : List Point) (vals : List Nat) :
    Except Err Grid :=
  if g.emptyCells.length < amount then .error .valueError
  else if picks.length = amount ∧ picks.Nodup ∧ ∀ p ∈ picks, p ∈ g.emptyCells then
    if vals.length = amount ∧ ∀ v ∈ vals, v ∈ SEEDING_VALUES then
      match seedLoop g (picks.zip vals) with
      | .error e => .error e
      | .ok g' =>
        if picks.isEmpty then .error .base2048
        else storeSnapshot g' none
    else .error .badOracle
  else .error .badOracle

/-- `Grid.drag`: increment `attempt`, move every cell in the traversal order
of `d`; when anything moved, increment `cycle`, seed one cell (which stores a
snapshot) and unlock every cell.  `picks`/`vals` are the seeding oracle. -/
def Grid.drag (g : Grid) (d : Dir) (picks : List Point) (vals : List Nat) :
    Except Err (Bool × Grid) :=
  let r := dragMoves { g with attempt := g.attempt + 1 } d
  if r.1 then
    match Grid.seed { r.2 with cycle := r.2.cycle + 1 } 1 picks vals with
    | .error e => .error e
    | .ok g3 =>
      .ok (true,
        { g3 with locks := fun q => if q.x < g3.side ∧ q.y < g3.side then false else g3.locks q })
  else .ok (false, r.2)

/-- The loop of `Grid.update_with_snapshot`: for each pair, look the cell up
(`KeyError` when off-board), unlock it, and assign the number (the `Cell`
setter raises `InvalidCellIntError` for values that are neither 0 nor a power
of two). -/
def updateLoop : Grid → List (Point × Nat) → Except Err Grid
  | g, [] => .ok g
  | g, (p, n) :: rest =>
    if p.x < g.side ∧ p.y < g.side then
      if either0Power2 n then
        let g1 := { g with locks := fun q => if q = p then false else g.locks q }
        updateLoop (setCell g1 p n) rest
      else .error .invalidCellInt
    else .error .keyError

/-- `Grid.update_with_snapshot`: validate the snapshot, then replace every
listed cell's number (unlocking it).  Stores no snapshot. -/
def Grid.updateWithSnapshot (g : Grid) (s : Snapshot) : Except Err Grid :=
  match checkSnapshot s with
  | .error e => .error e
  | .ok _ => updateLoop g s

/-- `Grid.undo`: with fewer than 2 snapshots, raise `IndexError`
(`ignoreEmpty = false`) or return `false`; otherwise drop the current-state
snapshot and restore the previous one. -/
def Grid.undo (g : Grid) (ignoreEmpty : Bool) : Except Err (Bool × Grid) :=
  if g.history.length < 2 then
    if ignoreEmpty then .ok (false, g) else .error .indexError
  else
    match Grid.updateWithSnapshot { g with history := g.history.dropLast }
        (g.history.dropLast.getLastD []) with
    | .error e => .error e
    | .ok g2 => .ok (true, g2)

/-- `Grid.reset`: zero the counters and every cell, unlock everything, clear
the history. -/
def Grid.reset (g : Grid) : Grid :=
  let g0 := { g with attempt := 0, cycle := 0, score := 0 }
  let g1 := (allPoints g0.side).foldl
    (fun acc p =>
      setCell { acc with locks := fun q => if q = p then false else acc.locks q } p 0)
    g0
  { g1 with history := [] }

/-- `Grid.is_jammed`: not jammed while any empty cell remains; otherwise
jammed iff no two adjacent cells share a number. -/
def Grid.isJammed (g : Grid) : Bool :=
  if g.emptyCells.length ≠ 0 then false
  else
    (allPoints g.side).all (fun p =>
      [Dir.up, Dir.left, Dir.down, Dir.right].all (fun d =>
        match neighbor g p d with
        | none => true
        | some q => g.numbers p != g.numbers q))

/-- `Grid._autofill`: unlock every cell and give it a random `_AUTO_NUMBERS`
value; `v` stands for the successive `random.choice(_AUTO_NUMBERS)` draws. -/
def autofillOnce (g : Grid) (v : Point → Nat) : Except Err Grid :=
  if ∀ p ∈ allPoints g.side, v p ∈ AUTO_NUMBERS then
    .ok ((allPoints g.side).foldl
      (fun acc p =>
        setCell { acc with locks := fun q => if q = p then false else acc.locks q } p (v p))
      g)
  else .error .badOracle

/-- The `while self.is_jammed` loop of `Grid.autofill`; the oracle list plays
the role of the random stream, and exhausting it stands for the
probability-zero event that the loop never exits. -/
def autofillWhile : List (Point → Nat) → Grid → Except Err Grid
  | [], g => if ¬Grid.isJammed g then .ok g else .error .badOracle
  | v :: vs, g =>
    if ¬Grid.isJammed g then .ok g
    else
      match autofillOnce g v with
      | .error e => .error e
      | .ok g1 => autofillWhile vs g1

/-- `Grid.autofill`: fill every cell with a random number, optionally
re-rolling while the result is jammed, then store a snapshot. -/
def Grid.autofill (g : Grid) (noJamming : Bool) (oracles : List (Point → Nat)) :
    Except Err Grid :=
  match oracles with
  | [] => .error .badOracle
  | v :: vs =>
    match autofillOnce g v with
    | .error e => .error e
    | .ok g1 =>
      match (if noJamming then autofillWhile vs g1 else .ok g1) with
      | .error e => .error e
      | .ok g2 => storeSnapshot g2 none

/-- The state assembled by `Grid.__init__` before its final jam check: an
empty board whose `empty_cells` holds every cell, empty history, zero
counters. -/
def initCore (side : Nat) : Grid :=
  { side := side
    numbers := fun _ => 0
    locks := fun _ => false
    emptyCells := allPoints side
    history := []
    attempt := 0
    cycle := 0
    score := 0 }

/-- `Grid.__init__`: validate `STARTING_AMOUNT` against the board size
(`Base2048Error`), then the side against the `BaseGameGrid` minimum of 2
(`ValueError`), build the empty grid, and autofill only if it starts jammed
(it cannot: it is empty).  `autoOracles` feeds that dead autofill branch. -/
def Grid.init (side : Nat) (autoOracles : List (Point → Nat)) : Except Err Grid :=
  if STARTING_AMOUNT < 1 then .error .base2048
  else if side * side < STARTING_AMOUNT then .error .base2048
  else if side < 2 then .error .valueError
  else
    let g := initCore side
    if Grid.isJammed g then Grid.autofill g true autoOracles
    else .ok g

/-- Floor integer square root, modelling `int(len(snapshot) ** 0.5)` without
`Float`: the number of `k ≤ n` with `k * k ≤ n`, minus one. -/
def intSqrt (n : Nat) : Nat :=
  ((List.range (n + 1)).filter (fun k => decide (k * k ≤ n))).length - 1

/-- `Grid.new_from_snapshot`: the snapshot size must be a perfect square;
build a grid of that side, apply the snapshot, and store it as the initial
history entry.  The nodup check models the keys of a Python `Mapping`. -/
def Grid.newFromSnapshot (s : Snapshot) : Except Err Grid :=
  if (s.map Prod.fst).Nodup then
    if intSqrt s.length * intSqrt s.length = s.length then
      match Grid.init (intSqrt s.length) [] with
      | .error e => .error e
      | .ok g =>
        match Grid.updateWithSnapshot g s with
        | .error e => .error e
        | .ok g1 => storeSnapshot g1 (some s)
    else .error .valueError
  else .error .badOracle

/-- An axis selector of a `GridIndex`: a non-negative integer, or a slice.
`GridIndex` turns an `Ellipsis` argument into the null slice
`slice(None) = slc none none none`, so "all" is represented by that slice. -/
inductive Axis where
  | nat (n : Nat)
  | slc (start stop step : Option Int)
deriving DecidableEq, Repr

/-- Whether a slice equals `NONE_SLICE = slice(None)`. -/
def Axis.isNoneSlice : Axis → Bool
  | .slc none none none => true
  | _ => false

/-- Python's `value or default` for the optional `int` fields of a slice
(`None` and `0` are falsy). -/
def pyOr (v : Option Int) (dflt : Int) : Int :=
  match v with
  | none => dflt
  | some x => if x = 0 then dflt else x

/-- `sys.maxsize` on a 64-bit machine. -/
def maxsize : Int := 2 ^ 63 - 1

/-- `BaseGameGrid._slice2range`: `range(start or 0, stop or sys.maxsize,
step or 1)` as a `(start, stop, step)` triple. -/
def slice2range (start stop step : Option Int) : Int × Int × Int :=
  (pyOr start 0, pyOr stop maxsize, pyOr step 1)

/-- Python's `v in range(start, stop, step)`.  A zero step cannot arise from
`slice2range` (`range` would raise `ValueError`). -/
def rangeMem (start stop step v : Int) : Bool :=
  if 0 < step then decide (start ≤ v ∧ v < stop ∧ (v - start) % step = 0)
  else if step < 0 then decide (stop < v ∧ v ≤ start ∧ (v - start) % step = 0)
  else false

/-- The restriction one axis selector places on one coordinate in
`BaseGameGrid.select_keys` (an `int` restricts to equality, a non-null slice
to range membership, the null slice not at all). -/
def axisMatch (a : Axis) (coord : Nat) : Bool :=
  match a with
  | .nat n => coord == n
  | .slc start stop step =>
    if (Axis.slc start stop step).isNoneSlice then true
    else
      let r := slice2range start stop step
      rangeMem r.1 r.2.1 r.2.2 (coord : Int)

/-- `BaseGameGrid.select_keys`: the points matching both selectors, in
sorted-key iteration order. -/
def selectKeys (side : Nat) (kx ky : Axis) : List Point :=
  (allPoints side).filter (fun p => axisMatch kx p.x && axisMatch ky p.y)

/-- The two result shapes of `BaseGameGrid.__getitem__`: a single cell, or a
tuple of cells.  A cell is rendered as its point paired with its number. -/
inductive GetResult where
  | one (v : Point × Nat)
  | many (vs : List (Point × Nat))
deriving DecidableEq, Repr

/-- `BaseGameGrid.__getitem__` on a non-`Point` key: select the matching
points; `KeyError` when none match, the bare element when exactly one does,
the tuple otherwise. -/
def getItem (g : Grid) (kx ky : Axis) : Except Err GetResult :=
  match selectKeys g.side kx ky with
  | [] => .error .keyError
  | [p] => .ok (.one (p, g.numbers p))
  | ps => .ok (.many (ps.map (fun p => (p, g.numbers p))))

/-- The `empty_cells` cache is coherent: it holds exactly the on-board cells
whose number is 0 (the two inclusions are bounded so that the property is
decidable on concrete grids). -/
def CacheCoherent (g : Grid) : Prop :=
  (∀ p ∈ g.emptyCells, p ∈ allPoints g.side ∧ g.numbers p = 0) ∧
  (∀ p ∈ allPoints g.side, g.numbers p = 0 → p ∈ g.emptyCells)

instance (g : Grid) : Decidable (CacheCoherent g) := by
  unfold CacheCoherent; infer_instance

/-- A well-formed stored snapshot: its keys are exactly the board's points,
some value is positive (`_check_snapshot`), and every value is 0 or a power
of two (it was read from, or written through, `Cell.number`). -/
def SnapWF (side : Nat) (s : Snapshot) : Prop :=
  (s.map Prod.fst).Perm (allPoints side) ∧
  (∃ pv ∈ s, pv.2 ≠ 0) ∧
  ∀ pv ∈ s, either0Power2 pv.2 = true

/-- The history-free part of the state invariant: a legal side, a
duplicate-free coherent `empty_cells` cache, and only `Cell`-legal numbers on
the board. -/
def InvNH (g : Grid) : Prop :=
  2 ≤ g.side ∧ g.emptyCells.Nodup ∧ CacheCoherent g ∧
    ∀ p ∈ allPoints g.side, either0Power2 (g.numbers p) = true

/-- The state invariant maintained by every `Grid` operation. -/
def Inv (g : Grid) : Prop :=
  InvNH g ∧ ∀ s ∈ g.history, SnapWF g.side s

/-- The grids produced by the public operations: construction (`Grid(side)`
and `Grid.new_from_snapshot`), `drag`, `seed`, `undo`, `reset`, `autofill`,
and `update_with_snapshot`. -/
inductive Reachable : Grid → Prop where
  | init (side : Nat) (oracles : List (Point → Nat)) (g : Grid) :
      Grid.init side oracles = .ok g → Reachable g
  | newFromSnapshot (s : Snapshot) (g : Grid) :
      Grid.newFromSnapshot s = .ok g → Reachable g
  | drag (g : Grid) (d : Dir) (picks : List Point) (vals : List Nat)
      (b : Bool) (g2 : Grid) : Reachable g →
      Grid.drag g d picks vals = .ok (b, g2) → Reachable g2
  | seed (g : Grid) (amount : Nat) (picks : List Point) (vals : List Nat)
      (g2 : Grid) : Reachable g →
      Grid.seed g amount picks vals = .ok g2 → Reachable g2
  | undo (g : Grid) (ignoreEmpty : Bool) (b : Bool) (g2 : Grid) : Reachable g →
      Grid.undo g ignoreEmpty = .ok (b, g2) → Reachable g2
  | reset (g : Grid) : Reachable g → Reachable (Grid.reset g)
  | autofill (g : Grid) (noJamming : Bool) (oracles : List (Point → Nat))
      (g2 : Grid) : Reachable g →
      Grid.autofill g noJamming oracles = .ok g2 → Reachable g2
  | updateWithSnapshot (g : Grid) (s : Snapshot) (g2 : Grid) : Reachable g →
      Grid.updateWithSnapshot g s = .ok g2 → Reachable g2

/-- A freshly constructed `Grid(2)`. -/
def gridTwo : Grid :=
  match Grid.init 2 [] with
  | .ok g => g
  | .error _ => initCore 2

/-- A snapshot placing a single 2 on an otherwise empty 2×2 board. -/
def snapOne : Snapshot :=
  [(⟨0, 0⟩, 2), (⟨0, 1⟩, 0), (⟨1, 0⟩, 0), (⟨1, 1⟩, 0)]

/-- `Grid(2)` followed by `update_with_snapshot(snapOne)`: a non-empty board
with an empty history. -/
def gridDesynced : Grid :=
  match Grid.updateWithSnapshot gridTwo snapOne with
  | .ok g => g
  | .error _ => gridTwo

/-- The result of dragging `gridDesynced` right (seeding cell (0,0) with 2). -/
def gridDesyncedDragged : Grid :=
  match Grid.drag gridDesynced .right [⟨0, 0⟩] [2] with
  | .ok (_, g) => g
  | .error _ => gridDesynced

/-- `Grid(2)` seeded at (0,0) and (1,1): history holds one snapshot equal to
the board. -/
def gridSeeded : Grid :=
  match Grid.seed gridTwo 2 [⟨0, 0⟩, ⟨1, 1⟩] [2, 2] with
  | .ok g => g
  | .error _ => gridTwo

/-- The result of dragging `gridSeeded` up (seeding cell (0,1) with 2). -/
def gridSeededDragged : Grid :=
  match Grid.drag gridSeeded .up [⟨0, 1⟩] [2] with
  | .ok (_, g) => g
  | .error _ => gridSeeded

/-- `gridSeeded` seeded once more at (0,1): history holds two snapshots. -/
def gridTwoHistory : Grid :=
  match Grid.seed gridSeeded 1 [⟨0, 1⟩] [4] with
  | .ok g => g
  | .error _ => gridSeeded

/-- A jammed 2×2 board (no empty cell, no equal adjacent pair), with a
coherent cache. -/
def gridJammed : Grid :=
  { side := 2
    numbers := fun p => if p = ⟨0, 0⟩ ∨ p = ⟨1, 1⟩ then 2 else if p = ⟨0, 1⟩ ∨ p = ⟨1, 0⟩ then 4 else 0
    locks := fun _ => false
    emptyCells := []
    history := []
    attempt := 0
    cycle := 0
    score := 0 }

/-- `Grid(2)` after a drag that moved nothing: only `attempt` advanced. -/
def gridTwoAttempt : Grid :=
  match Grid.drag gridTwo .left [] [] with
  | .ok (_, g) => g
  | .error _ => gridTwo

/-- A freshly constructed `Grid(4)` (the default side). -/
def gridFour : Grid :=
  match Grid.init 4 [] with
  | .ok g => g
  | .error _ => initCore 4

/-- The grid built by `Grid.new_from_snapshot(snapOne)`. -/
def gridFromSnap : Grid :=
  match Grid.newFromSnapshot snapOne with
  | .ok g => g
  | .error _ => initCore 2

/-! ### Basic facts about the board's point list -/

theorem mem_allPoints {side : Nat} {p : Point} :
    p ∈ allPoints side ↔ p.x < side ∧ p.y < side := by
  unfold allPoints
  simp only [List.mem_flatMap, List.mem_map, List.mem_range]
  constructor
  · rintro ⟨x, hx, y, hy, rfl⟩
    exact ⟨hx, hy⟩
  · rintro ⟨hx, hy⟩
    exact ⟨p.x, hx, p.y, hy, rfl⟩

theorem allPoints_pairwise (side : Nat) : (allPoints side).Pairwise ptLt := by
  unfold allPoints
  rw [List.pairwise_flatMap]
  constructor
  · intro x _
    rw [List.pairwise_map]
    exact (List.pairwise_lt_range side).imp (fun h => Or.inr ⟨rfl, h⟩)
  · refine (List.pairwise_lt_range side).imp ?_
    intro a b hab u hu v hv
    simp only [List.mem_map, List.mem_range] at hu hv
    obtain ⟨yu, _, rfl⟩ := hu
    obtain ⟨yv, _, rfl⟩ := hv
    exact Or.inl hab

theorem allPoints_nodup (side : Nat) : (allPoints side).Nodup :=
  (allPoints_pairwise side).imp (fun hab heq => by
    subst heq
    unfold ptLt at hab
    omega)

theorem allPoints_length (side : Nat) : (allPoints side).length = side * side := by
  unfold allPoints
  rw [List.length_flatMap]
  have h : List.map (List.length ∘ fun x => (List.range side).map (fun y => Point.mk x y))
      (List.range side) =
      List.replicate (List.map (List.length ∘ fun x => (List.range side).map
        (fun y => Point.mk x y)) (List.range side)).length side := by
    apply List.eq_replicate_of_mem
    intro b hb
    simp only [List.mem_map, Function.comp] at hb
    obtain ⟨x, _, rfl⟩ := hb
    simp
  rw [h, List.sum_replicate]
  simp [smul_eq_mul]

/-! ### Facts about `either0Power2` -/

theorem either0Power2_double {n : Nat} (h : either0Power2 n = true) :
    either0Power2 (n + n) = true := by
  unfold either0Power2 at h ⊢
  rw [beq_iff_eq] at h ⊢
  apply Nat.eq_of_testBit_eq
  intro i
  rw [Nat.zero_testBit, Nat.testBit_and]
  cases i with
  | zero =>
    have h0 : (n + n) % 2 = 0 := by omega
    rw [Nat.testBit_zero, h0]
    simp
  | succ j =>
    rcases Nat.eq_zero_or_pos n with hn | hn
    · subst hn
      simp [Nat.zero_testBit]
    · have h1 : (n + n) / 2 = n := by omega
      have h2 : (n + n - 1) / 2 = n - 1 := by omega
      rw [Nat.testBit_succ, Nat.testBit_succ, h1, h2, ← Nat.testBit_and, h, Nat.zero_testBit]

theorem seedingValues_valid : ∀ v ∈ SEEDING_VALUES, either0Power2 v = true := by decide

theorem autoNumbers_valid : ∀ v ∈ AUTO_NUMBERS, either0Power2 v = true := by decide

/-! ### Facts about `setCell` -/

theorem setCell_side (g : Grid) (p : Point) (n : Nat) : (setCell g p n).side = g.side := rfl

theorem setCell_history (g : Grid) (p : Point) (n : Nat) :
    (setCell g p n).history = g.history := rfl

theorem setCell_counters (g : Grid) (p : Point) (n : Nat) :
    (setCell g p n).attempt = g.attempt ∧ (setCell g p n).cycle = g.cycle ∧
      (setCell g p n).score = g.score := ⟨rfl, rfl, rfl⟩

theorem setCell_locks (g : Grid) (p : Point) (n : Nat) : (setCell g p n).locks = g.locks := rfl

theorem setCell_numbers (g : Grid) (p : Point) (n : Nat) (q : Point) :
    (setCell g p n).numbers q = if q = p then n else g.numbers q := rfl

theorem mem_setCell_empty {g : Grid} {p : Point} {n : Nat} {q : Point} :
    q ∈ (setCell g p n).emptyCells ↔
      (if n = 0 then q = p ∨ q ∈ g.emptyCells else q ∈ g.emptyCells ∧ q ≠ p) := by
  unfold setCell
  by_cases hn : n = 0
  · simp [hn, List.mem_insert_iff]
  · simp [hn, List.mem_filter, bne_iff_ne]

theorem setCell_nodup {g : Grid} {p : Point} {n : Nat} (h : g.emptyCells.Nodup) :
    (setCell g p n).emptyCells.Nodup := by
  show (if n ≠ 0 then g.emptyCells.filter (fun q => q != p) else g.emptyCells.insert p).Nodup
  split
  · exact h.filter _
  · exact h.insert

theorem setCell_cache {g : Grid} {p : Point} {n : Nat}
    (hc : CacheCoherent g) (hp : p ∈ allPoints g.side) :
    CacheCoherent (setCell g p n) := by
  obtain ⟨h1, h2⟩ := hc
  constructor
  · intro q hq
    rw [mem_setCell_empty] at hq
    rw [setCell_side, setCell_numbers]
    by_cases hqp : q = p
    · subst hqp
      refine ⟨hp, ?_⟩
      rw [if_pos rfl]
      by_cases hn : n = 0
      · exact hn
      · rw [if_neg hn] at hq
        exact absurd rfl hq.2
    · rw [if_neg hqp]
      by_cases hn : n = 0
      · rw [if_pos hn] at hq
        rcases hq with hq | hq
        · exact absurd hq hqp
        · exact h1 q hq
      · rw [if_neg hn] at hq
        exact h1 q hq.1
  · intro q hq hq0
    rw [setCell_side] at hq
    rw [setCell_numbers] at hq0
    rw [mem_setCell_empty]
    by_cases hqp : q = p
    · subst hqp
      rw [if_pos rfl] at hq0
      subst hq0
      rw [if_pos rfl]
      exact Or.inl rfl
    · rw [if_neg hqp] at hq0
      by_cases hn : n = 0
      · rw [if_pos hn]
        exact Or.inr (h2 q hq hq0)
      · rw [if_neg hn]
        exact ⟨h2 q hq hq0, hqp⟩

theorem setCell_valid {g : Grid} {p : Point} {n : Nat}
    (hv : ∀ q ∈ allPoints g.side, either0Power2 (g.numbers q) = true)
    (hn : either0Power2 n = true) :
    ∀ q ∈ allPoints (setCell g p n).side, either0Power2 ((setCell g p n).numbers q) = true := by
  intro q hq
  rw [setCell_numbers]
  rw [setCell_side] at hq
  by_cases hqp : q = p
  · rw [if_pos hqp]
    exact hn
  · rw [if_neg hqp]
    exact hv q hq

/-! ### Facts about the neighbor walk and `pivot` -/

theorem neighbor_facts {g : Grid} {p : Point} {d : Dir} {q : Point}
    (h : neighbor g p d = some q) :
    (q.x < g.side ∧ q.y < g.side) ∧ edgeDist g d q + 1 ≤ edgeDist g d p := by
  cases d <;>
    (simp only [neighbor, shift] at h
     split at h
     · split at h
       · injection h with hq
         subst hq
         rename_i hge hlt
         refine ⟨hlt, ?_⟩
         simp only [edgeDist]
         omega
       · cases h
     · cases h)

theorem rayAux_length_le (g : Grid) (d : Dir) :
    ∀ fuel p, (rayAux g d fuel p).length ≤ edgeDist g d p := by
  intro fuel
  induction fuel with
  | zero =>
    intro p
    simp [rayAux]
  | succ n ih =>
    intro p
    cases hnb : neighbor g p d with
    | none => simp [rayAux, hnb]
    | some q =>
      simp only [rayAux, hnb, List.length_cons]
      have h := (neighbor_facts hnb).2
      have h2 := ih q
      omega

theorem rayAux_length_lt {g : Grid} {p : Point} {d : Dir}
    (hx : p.x < g.side) (hy : p.y < g.side) :
    (rayAux g d g.side p).length < g.side := by
  have h := rayAux_length_le g d g.side p
  have h2 : edgeDist g d p < g.side := by
    cases d <;> simp only [edgeDist] <;> omega
  omega

theorem pivotAux_eq_spec (g : Grid) (d : Dir) (t : Nat) :
    ∀ fuel p, (rayAux g d fuel p).length < fuel →
      pivotAux g d t fuel p p = some (pivotSpecList g t p (rayAux g d fuel p)) := by
  intro fuel
  induction fuel with
  | zero =>
    intro p h
    simp at h
  | succ n ih =>
    intro p hlen
    cases hnb : neighbor g p d with
    | none =>
      simp only [pivotAux, rayAux, hnb]
      unfold pivotSpecList
      simp
    | some q =>
      simp only [rayAux, hnb, List.length_cons] at hlen
      simp only [pivotAux, rayAux, hnb]
      by_cases hq0 : g.numbers q = 0
      · rw [if_pos hq0]
        have ih2 := ih q (by omega)
        rw [ih2]
        have hq0b : (g.numbers q == 0) = true := by simpa using hq0
        unfold pivotSpecList
        rw [List.dropWhile_cons, List.takeWhile_cons]
        simp only [hq0b, if_true, List.getLastD_cons]
      · rw [if_neg hq0]
        have hq0b : (g.numbers q == 0) = false := by simpa using hq0
        unfold pivotSpecList
        rw [List.dropWhile_cons, List.takeWhile_cons, hq0b]
        by_cases hm : g.numbers q = t ∧ g.locks q = false
        · simp [hm]
        · simp [hm]

theorem pivotAux_sound {g : Grid} {d : Dir} {t : Nat} :
    ∀ {fuel : Nat} {cur last q : Point}, pivotAux g d t fuel cur last = some q →
      q = last ∨ ((q.x < g.side ∧ q.y < g.side) ∧
        (g.numbers q = 0 ∨ (g.numbers q = t ∧ g.locks q = false))) := by
  intro fuel
  induction fuel with
  | zero =>
    intro cur last q h
    simp [pivotAux] at h
  | succ n ih =>
    intro cur last q h
    cases hnb : neighbor g cur d with
    | none =>
      simp only [pivotAux, hnb] at h
      injection h with h
      exact Or.inl h.symm
    | some next =>
      simp only [pivotAux, hnb] at h
      by_cases hq0 : g.numbers next = 0
      · rw [if_pos hq0] at h
        rcases ih h with h1 | h1
        · subst h1
          exact Or.inr ⟨(neighbor_facts hnb).1, Or.inl hq0⟩
        · exact Or.inr h1
      · rw [if_neg hq0] at h
        by_cases hm : g.numbers next = t ∧ g.locks next = false
        · rw [if_pos hm] at h
          injection h with h
          subst h
          exact Or.inr ⟨(neighbor_facts hnb).1, Or.inr hm⟩
        · rw [if_neg hm] at h
          injection h with h
          exact Or.inl h.symm

theorem pivot_sound {g : Grid} {c : Point} {d : Dir} {q : Point}
    (h : pivot g c d = some q) :
    q = c ∨ ((q.x < g.side ∧ q.y < g.side) ∧
      (g.numbers q = 0 ∨ (g.numbers q = g.numbers c ∧ g.locks q = false))) :=
  pivotAux_sound h

/-! ### Facts about `moveCell` -/

theorem moveCell_cases (g : Grid) (c : Point) (d : Dir) :
    moveCell g c d = (false, g) ∨
    ∃ piv, pivot g c d = some piv ∧ piv ≠ c ∧ g.numbers c ≠ 0 ∧
      moveCell g c d = (true,
        setCell (setCell (if g.numbers piv ≠ 0 then
          { g with
            locks := fun q => if q = piv then true else g.locks q
            score := g.score + (g.numbers c + g.numbers piv) }
          else g) c 0) piv (g.numbers c + g.numbers piv)) := by
  unfold moveCell
  split
  · exact Or.inl rfl
  · rename_i hc
    split
    · exact Or.inl rfl
    · rename_i piv hp
      split
      · exact Or.inl rfl
      · rename_i hpc
        exact Or.inr ⟨piv, hp, hpc, hc, rfl⟩

theorem moveCell_frame (g : Grid) (c : Point) (d : Dir) :
    (moveCell g c d).2.side = g.side ∧ (moveCell g c d).2.history = g.history ∧
      (moveCell g c d).2.attempt = g.attempt ∧ (moveCell g c d).2.cycle = g.cycle := by
  rcases moveCell_cases g c d with h | ⟨piv, _, _, _, h⟩ <;> rw [h]
  · exact ⟨rfl, rfl, rfl, rfl⟩
  · refine ⟨?_, ?_, ?_, ?_⟩ <;>
      (simp only [setCell_side, setCell_history, setCell_counters]
       split <;> rfl)

theorem moveCell_snd_of_false {g : Grid} {c : Point} {d : Dir}
    (h : (moveCell g c d).1 = false) : (moveCell g c d).2 = g := by
  rcases moveCell_cases g c d with h2 | ⟨piv, _, _, _, h2⟩
  · rw [h2]
  · rw [h2] at h
    cases h

/-! ### The move loop preserves the invariant -/

theorem moveCell_invNH {g : Grid} {c : Point} {d : Dir}
    (hc : c.x < g.side ∧ c.y < g.side) (hg : InvNH g) : InvNH (moveCell g c d).2 := by
  rcases moveCell_cases g c d with h | ⟨piv, hp, hpc, hc0, h⟩
  · rw [h]
    exact hg
  · rw [h]
    rcases pivot_sound hp with h1 | ⟨hpb, hnum⟩
    · exact absurd h1 hpc
    obtain ⟨hside, hnd, hcc, hval⟩ := hg
    set G := (if g.numbers piv ≠ 0 then
      { g with
        locks := fun q => if q = piv then true else g.locks q
        score := g.score + (g.numbers c + g.numbers piv) }
      else g) with hGdef
    have hGs : G.side = g.side := by rw [hGdef]; split <;> rfl
    have hGe : G.emptyCells = g.emptyCells := by rw [hGdef]; split <;> rfl
    have hGn : G.numbers = g.numbers := by rw [hGdef]; split <;> rfl
    have hG : InvNH G := by
      refine ⟨?_, ?_, ?_, ?_⟩
      · rw [hGs]; exact hside
      · rw [hGe]; exact hnd
      · unfold CacheCoherent
        rw [hGs, hGe, hGn]
        exact hcc
      · rw [hGs, hGn]; exact hval
    obtain ⟨hs1, hn1, hc1, hv1⟩ := hG
    have hcmem : c ∈ allPoints G.side := by
      rw [hGs]; exact mem_allPoints.mpr hc
    have inv1 : InvNH (setCell G c 0) := by
      refine ⟨?_, setCell_nodup hn1, setCell_cache hc1 hcmem, setCell_valid hv1 (by decide)⟩
      rw [setCell_side]; exact hs1
    obtain ⟨hs2, hn2, hc2, hv2⟩ := inv1
    have hpmem : piv ∈ allPoints (setCell G c 0).side := by
      rw [setCell_side, hGs]
      exact mem_allPoints.mpr hpb
    have hnew : either0Power2 (g.numbers c + g.numbers piv) = true := by
      rcases hnum with h0 | ⟨heq, _⟩
      · rw [h0, Nat.add_zero]
        exact hval c (mem_allPoints.mpr hc)
      · rw [heq]
        exact either0Power2_double (hval c (mem_allPoints.mpr hc))
    refine ⟨?_, setCell_nodup hn2, setCell_cache hc2 hpmem, setCell_valid hv2 hnew⟩
    rw [setCell_side]
    exact hs2

theorem dragOrder_mem {side : Nat} {d : Dir} {p : Point} (h : p ∈ dragOrder side d) :
    p.x < side ∧ p.y < side := by
  cases d <;>
    (simp only [dragOrder, column, row, List.mem_flatMap, List.mem_reverse, List.mem_map,
      List.mem_range] at h
     obtain ⟨a, ha, b, hb, rfl⟩ := h
     dsimp only
     omega)

theorem dragFold_false {d : Dir} :
    ∀ (l : List Point) (b : Bool) (g : Grid),
      (l.foldl (fun acc c => (acc.1 || (moveCell acc.2 c d).1, (moveCell acc.2 c d).2))
        (b, g)).1 = false →
      b = false ∧
        (l.foldl (fun acc c => (acc.1 || (moveCell acc.2 c d).1, (moveCell acc.2 c d).2))
          (b, g)).2 = g := by
  intro l
  induction l with
  | nil =>
    intro b g h
    exact ⟨h, rfl⟩
  | cons c rest ih =>
    intro b g h
    rw [List.foldl_cons] at h ⊢
    obtain ⟨h1, h2⟩ := ih _ _ h
    have hb : b = false := (Bool.or_eq_false_iff.mp h1).1
    have hm : (moveCell g c d).1 = false := (Bool.or_eq_false_iff.mp h1).2
    exact ⟨hb, h2.trans (moveCell_snd_of_false hm)⟩

theorem dragFold_exists_nonzero {d : Dir} :
    ∀ (l : List Point) (g : Grid),
      (l.foldl (fun acc c => (acc.1 || (moveCell acc.2 c d).1, (moveCell acc.2 c d).2))
        (false, g)).1 = true →
      ∃ c ∈ l, g.numbers c ≠ 0 := by
  intro l
  induction l with
  | nil =>
    intro g h
    cases h
  | cons c rest ih =>
    intro g h
    rw [List.foldl_cons] at h
    by_cases hm : (moveCell g c d).1 = true
    · rcases moveCell_cases g c d with h2 | ⟨piv, _, _, hc0, h2⟩
      · rw [h2] at hm
        cases hm
      · exact ⟨c, List.mem_cons_self c rest, hc0⟩
    · have hmf : (moveCell g c d).1 = false := by simpa using hm
      have hg := moveCell_snd_of_false hmf
      rw [hmf, hg, Bool.or_false] at h
      obtain ⟨c2, hc2, hn⟩ := ih g h
      exact ⟨c2, List.mem_cons_of_mem _ hc2, hn⟩

theorem dragFold_frame {d : Dir} :
    ∀ (l : List Point) (b : Bool) (g : Grid),
      (l.foldl (fun acc c => (acc.1 || (moveCell acc.2 c d).1, (moveCell acc.2 c d).2))
          (b, g)).2.side = g.side ∧
      (l.foldl (fun acc c => (acc.1 || (moveCell acc.2 c d).1, (moveCell acc.2 c d).2))
          (b, g)).2.history = g.history ∧
      (l.foldl (fun acc c => (acc.1 || (moveCell acc.2 c d).1, (moveCell acc.2 c d).2))
          (b, g)).2.attempt = g.attempt ∧
      (l.foldl (fun acc c => (acc.1 || (moveCell acc.2 c d).1, (moveCell acc.2 c d).2))
          (b, g)).2.cycle = g.cycle := by
  intro l
  induction l with
  | nil =>
    intro b g
    exact ⟨rfl, rfl, rfl, rfl⟩
  | cons c rest ih =>
    intro b g
    rw [List.foldl_cons]
    obtain ⟨i1, i2, i3, i4⟩ := ih (b || (moveCell g c d).1) (moveCell g c d).2
    obtain ⟨m1, m2, m3, m4⟩ := moveCell_frame g c d
    exact ⟨i1.trans m1, i2.trans m2, i3.trans m3, i4.trans m4⟩

theorem dragFold_invNH {d : Dir} :
    ∀ (l : List Point) (b : Bool) (g : Grid),
      (∀ c ∈ l, c.x < g.side ∧ c.y < g.side) → InvNH g →
      InvNH ((l.foldl (fun acc c => (acc.1 || (moveCell acc.2 c d).1, (moveCell acc.2 c d).2))
        (b, g)).2) := by
  intro l
  induction l with
  | nil =>
    intro b g _ hg
    exact hg
  | cons c rest ih =>
    intro b g hmem hg
    rw [List.foldl_cons]
    refine ih _ _ ?_ (moveCell_invNH (hmem c (List.mem_cons_self c rest)) hg)
    intro c2 hc2
    have h2 := hmem c2 (List.mem_cons_of_mem _ hc2)
    rw [(moveCell_frame g c d).1]
    exact h2

theorem dragMoves_invNH {g : Grid} {d : Dir} (hg : InvNH g) : InvNH (dragMoves g d).2 := by
  unfold dragMoves
  exact dragFold_invNH _ _ _ (fun c hc => dragOrder_mem hc) hg

theorem dragMoves_frame (g : Grid) (d : Dir) :
    (dragMoves g d).2.side = g.side ∧ (dragMoves g d).2.history = g.history ∧
      (dragMoves g d).2.attempt = g.attempt ∧ (dragMoves g d).2.cycle = g.cycle :=
  dragFold_frame _ _ _

/-! ### Facts about `seedLoop`, `storeSnapshot` and `updateLoop` -/

theorem seedLoop_frame :
    ∀ (l : List (Point × Nat)) (g g2 : Grid), seedLoop g l = .ok g2 →
      g2.side = g.side ∧ g2.history = g.history ∧ g2.attempt = g.attempt ∧
        g2.cycle = g.cycle ∧ g2.score = g.score ∧ g2.locks = g.locks := by
  intro l
  induction l with
  | nil =>
    intro g g2 h
    injection h with h
    subst h
    exact ⟨rfl, rfl, rfl, rfl, rfl, rfl⟩
  | cons pv rest ih =>
    intro g g2 h
    obtain ⟨p, v⟩ := pv
    unfold seedLoop at h
    split at h
    · cases h
    · obtain ⟨h1, h2, h3, h4, h5, h6⟩ := ih _ _ h
      exact ⟨h1.trans (setCell_side _ _ _), h2.trans (setCell_history _ _ _),
        h3.trans (setCell_counters _ _ _).1, h4.trans (setCell_counters _ _ _).2.1,
        h5.trans (setCell_counters _ _ _).2.2, h6.trans (setCell_locks _ _ _)⟩

theorem seedLoop_numbers_not_mem :
    ∀ (l : List (Point × Nat)) (g g2 : Grid) (q : Point), seedLoop g l = .ok g2 →
      q ∉ l.map Prod.fst → g2.numbers q = g.numbers q := by
  intro l
  induction l with
  | nil =>
    intro g g2 q h _
    injection h with h
    subst h
    rfl
  | cons pv rest ih =>
    intro g g2 q h hq
    obtain ⟨p, v⟩ := pv
    rw [List.map_cons, List.mem_cons] at hq
    push_neg at hq
    unfold seedLoop at h
    split at h
    · cases h
    · have h2 := ih _ _ q h hq.2
      rw [h2, setCell_numbers, if_neg hq.1]

theorem seedLoop_sets_head {g g2 : Grid} {p : Point} {v : Nat} {rest : List (Point × Nat)}
    (h : seedLoop g ((p, v) :: rest) = .ok g2) (hmem : p ∉ rest.map Prod.fst) :
    g.numbers p = 0 ∧ g2.numbers p = v := by
  unfold seedLoop at h
  split at h
  · cases h
  · rename_i h0
    push_neg at h0
    have h2 := seedLoop_numbers_not_mem rest _ _ p h hmem
    rw [setCell_numbers, if_pos rfl] at h2
    exact ⟨h0, h2⟩

theorem seedLoop_invNH :
    ∀ (l : List (Point × Nat)) (g g2 : Grid), seedLoop g l = .ok g2 →
      (∀ pv ∈ l, pv.1 ∈ allPoints g.side ∧ either0Power2 pv.2 = true) →
      InvNH g → InvNH g2 := by
  intro l
  induction l with
  | nil =>
    intro g g2 h _ hg
    injection h with h
    subst h
    exact hg
  | cons pv rest ih =>
    intro g g2 h hmem hg
    obtain ⟨p, v⟩ := pv
    unfold seedLoop at h
    split at h
    · cases h
    · obtain ⟨hs, hn, hc, hv⟩ := hg
      obtain ⟨hpm, hpv⟩ := hmem (p, v) (List.mem_cons_self _ _)
      refine ih _ _ h ?_ ?_
      · intro pv2 hpv2
        rw [setCell_side]
        exact hmem pv2 (List.mem_cons_of_mem _ hpv2)
      · refine ⟨?_, setCell_nodup hn, setCell_cache hc hpm, setCell_valid hv hpv⟩
        rw [setCell_side]
        exact hs

theorem storeSnapshot_none_eq (g : Grid) :
    storeSnapshot g none =
      if (boardSnapshot g).any (fun pv => pv.2 != 0) = true
      then .ok { g with history := g.history ++ [boardSnapshot g] }
      else .error .valueError := by
  by_cases hC : (boardSnapshot g).any (fun pv => pv.2 != 0) = true <;>
    simp [storeSnapshot, checkSnapshot, hC]

theorem storeSnapshot_some_eq (g : Grid) (s : Snapshot) :
    storeSnapshot g (some s) =
      if s.any (fun pv => pv.2 != 0) = true
      then .ok { g with history := g.history ++ [s] }
      else .error .valueError := by
  by_cases hC : s.any (fun pv => pv.2 != 0) = true <;>
    simp [storeSnapshot, checkSnapshot, hC]

theorem updateLoop_frame :
    ∀ (l : List (Point × Nat)) (g g2 : Grid), updateLoop g l = .ok g2 →
      g2.side = g.side ∧ g2.history = g.history ∧ g2.attempt = g.attempt ∧
        g2.cycle = g.cycle ∧ g2.score = g.score := by
  intro l
  induction l with
  | nil =>
    intro g g2 h
    injection h with h
    subst h
    exact ⟨rfl, rfl, rfl, rfl, rfl⟩
  | cons pv rest ih =>
    intro g g2 h
    obtain ⟨p, n⟩ := pv
    unfold updateLoop at h
    split at h
    · split at h
      · obtain ⟨h1, h2, h3, h4, h5⟩ := ih _ _ h
        exact ⟨h1.trans (setCell_side _ _ _), h2.trans (setCell_history _ _ _),
          h3.trans (setCell_counters _ _ _).1, h4.trans (setCell_counters _ _ _).2.1,
          h5.trans (setCell_counters _ _ _).2.2⟩
      · cases h
    · cases h

theorem updateLoop_ok :
    ∀ (l : List (Point × Nat)) (g : Grid),
      (∀ pv ∈ l, (pv.1.x < g.side ∧ pv.1.y < g.side) ∧ either0Power2 pv.2 = true) →
      ∃ g2, updateLoop g l = .ok g2 := by
  intro l
  induction l with
  | nil =>
    intro g _
    exact ⟨g, rfl⟩
  | cons pv rest ih =>
    intro g hmem
    obtain ⟨p, n⟩ := pv
    obtain ⟨hb, hv⟩ := hmem (p, n) (List.mem_cons_self _ _)
    unfold updateLoop
    rw [if_pos hb, if_pos hv]
    refine ih _ ?_
    intro pv2 hpv2
    rw [setCell_side]
    exact hmem pv2 (List.mem_cons_of_mem _ hpv2)

theorem updateLoop_inputs :
    ∀ (l : List (Point × Nat)) (g g2 : Grid), updateLoop g l = .ok g2 →
      ∀ pv ∈ l, (pv.1.x < g.side ∧ pv.1.y < g.side) ∧ either0Power2 pv.2 = true := by
  intro l
  induction l with
  | nil =>
    intro g g2 _ pv hpv
    exact absurd hpv (List.not_mem_nil _)
  | cons pv0 rest ih =>
    intro g g2 h pv hpv
    obtain ⟨p, n⟩ := pv0
    unfold updateLoop at h
    split at h
    · split at h
      · rename_i hb hv
        rcases List.mem_cons.mp hpv with hpv | hpv
        · subst hpv
          exact ⟨hb, hv⟩
        · have h2 := ih _ _ h pv hpv
          rw [setCell_side] at h2
          exact h2
      · cases h
    · cases h

theorem updateLoop_numbers :
    ∀ (l : List (Point × Nat)) (g g2 : Grid), (l.map Prod.fst).Nodup →
      updateLoop g l = .ok g2 →
      (∀ pv ∈ l, g2.numbers pv.1 = pv.2 ∧ g2.locks pv.1 = false) ∧
      ∀ q, q ∉ l.map Prod.fst → g2.numbers q = g.numbers q ∧ g2.locks q = g.locks q := by
  intro l
  induction l with
  | nil =>
    intro g g2 _ h
    injection h with h
    subst h
    exact ⟨fun pv hpv => absurd hpv (List.not_mem_nil _), fun q _ => ⟨rfl, rfl⟩⟩
  | cons pv0 rest ih =>
    intro g g2 hnd h
    obtain ⟨p, n⟩ := pv0
    rw [List.map_cons, List.nodup_cons] at hnd
    unfold updateLoop at h
    split at h
    · split at h
      · obtain ⟨ihmem, ihout⟩ := ih _ _ hnd.2 h
        have hout := ihout p hnd.1
        constructor
        · intro pv hpv
          rcases List.mem_cons.mp hpv with hpv | hpv
          · subst hpv
            constructor
            · rw [hout.1, setCell_numbers, if_pos rfl]
            · rw [hout.2, setCell_locks]
              exact if_pos rfl
          · exact ihmem pv hpv
        · intro q hq
          rw [List.map_cons, List.mem_cons] at hq
          push_neg at hq
          have h2 := ihout q hq.2
          constructor
          · rw [h2.1, setCell_numbers, if_neg hq.1]
          · rw [h2.2, setCell_locks]
            exact if_neg hq.1
      · cases h
    · cases h

theorem updateLoop_invNH :
    ∀ (l : List (Point × Nat)) (g g2 : Grid), updateLoop g l = .ok g2 →
      InvNH g → InvNH g2 := by
  intro l
  induction l with
  | nil =>
    intro g g2 h hg
    injection h with h
    subst h
    exact hg
  | cons pv0 rest ih =>
    intro g g2 h hg
    obtain ⟨p, n⟩ := pv0
    unfold updateLoop at h
    split at h
    · split at h
      · rename_i hb hv
        obtain ⟨hs, hn, hc, hval⟩ := hg
        refine ih _ _ h ?_
        refine ⟨?_, setCell_nodup hn, setCell_cache hc (mem_allPoints.mpr hb),
          setCell_valid hval hv⟩
        rw [setCell_side]
        exact hs
      · cases h
    · cases h

/-! ### Operation-level characterizations -/

theorem boardSnapshot_keys (g : Grid) : (boardSnapshot g).map Prod.fst = allPoints g.side := by
  unfold boardSnapshot
  rw [List.map_map]
  have hcomp : (Prod.fst ∘ fun p : Point => (p, g.numbers p)) = fun p => p := rfl
  rw [hcomp, List.map_id']

theorem boardSnapshot_mem {g : Grid} {pv : Point × Nat} (h : pv ∈ boardSnapshot g) :
    pv.1 ∈ allPoints g.side ∧ pv.2 = g.numbers pv.1 := by
  unfold boardSnapshot at h
  simp only [List.mem_map] at h
  obtain ⟨p, hp, rfl⟩ := h
  exact ⟨hp, rfl⟩

theorem snapWF_board {g : Grid}
    (hv : ∀ p ∈ allPoints g.side, either0Power2 (g.numbers p) = true)
    (hany : (boardSnapshot g).any (fun pv => pv.2 != 0) = true) :
    SnapWF g.side (boardSnapshot g) := by
  refine ⟨?_, ?_, ?_⟩
  · rw [boardSnapshot_keys]
  · rw [List.any_eq_true] at hany
    obtain ⟨pv, hpv, hne⟩ := hany
    exact ⟨pv, hpv, by simpa using hne⟩
  · intro pv hpv
    obtain ⟨h1, h2⟩ := boardSnapshot_mem hpv
    rw [h2]
    exact hv _ h1

theorem storeSnapshot_none_ok {g g2 : Grid} (h : storeSnapshot g none = .ok g2) :
    (boardSnapshot g).any (fun pv => pv.2 != 0) = true ∧
      g2 = { g with history := g.history ++ [boardSnapshot g] } := by
  rw [storeSnapshot_none_eq] at h
  split at h
  · rename_i hC
    injection h with h
    exact ⟨hC, h.symm⟩
  · cases h

theorem storeSnapshot_some_ok {g g2 : Grid} {s : Snapshot}
    (h : storeSnapshot g (some s) = .ok g2) :
    s.any (fun pv => pv.2 != 0) = true ∧ g2 = { g with history := g.history ++ [s] } := by
  rw [storeSnapshot_some_eq] at h
  split at h
  · rename_i hC
    injection h with h
    exact ⟨hC, h.symm⟩
  · cases h

theorem seed_ok {g : Grid} {amount : Nat} {picks : List Point} {vals : List Nat} {g2 : Grid}
    (h : Grid.seed g amount picks vals = .ok g2) :
    ¬g.emptyCells.length < amount ∧
    (picks.length = amount ∧ picks.Nodup ∧ ∀ p ∈ picks, p ∈ g.emptyCells) ∧
    (vals.length = amount ∧ ∀ v ∈ vals, v ∈ SEEDING_VALUES) ∧
    picks ≠ [] ∧
    ∃ g1, seedLoop g (picks.zip vals) = .ok g1 ∧
      (boardSnapshot g1).any (fun pv => pv.2 != 0) = true ∧
      g2 = { g1 with history := g1.history ++ [boardSnapshot g1] } := by
  unfold Grid.seed at h
  split at h
  · cases h
  · rename_i hlen
    split at h
    · rename_i hpicks
      split at h
      · rename_i hvals
        split at h
        · cases h
        · rename_i g1 hloop
          split at h
          · cases h
          · rename_i hne
            obtain ⟨hany, hg2⟩ := storeSnapshot_none_ok h
            refine ⟨hlen, hpicks, hvals, ?_, g1, hloop, hany, hg2⟩
            simpa [List.isEmpty_iff] using hne
      · cases h
    · cases h

theorem seed_inv {g : Grid} {amount : Nat} {picks : List Point} {vals : List Nat} {g2 : Grid}
    (h : Grid.seed g amount picks vals = .ok g2) (hg : Inv g) : Inv g2 := by
  obtain ⟨-, ⟨hplen, hpnd, hpmem⟩, ⟨hvlen, hvmem⟩, -, g1, hloop, hany, hg2eq⟩ := seed_ok h
  obtain ⟨hgNH, hghist⟩ := hg
  have hzip : ∀ pv ∈ picks.zip vals, pv.1 ∈ allPoints g.side ∧ either0Power2 pv.2 = true := by
    intro pv hpv
    obtain ⟨p, v⟩ := pv
    obtain ⟨h1, h2⟩ := List.of_mem_zip hpv
    refine ⟨(hgNH.2.2.1.1 p (hpmem p h1)).1, ?_⟩
    exact seedingValues_valid v (hvmem v h2)
  have hg1 := seedLoop_invNH _ _ _ hloop hzip hgNH
  obtain ⟨hfr1, hfr2, -⟩ := seedLoop_frame _ _ _ hloop
  subst hg2eq
  refine ⟨hg1, ?_⟩
  intro s hs
  rw [List.mem_append] at hs
  rcases hs with hs | hs
  · rw [hfr2] at hs
    have hwf := hghist s hs
    rw [← hfr1] at hwf
    exact hwf
  · rw [List.mem_singleton] at hs
    subst hs
    exact snapWF_board hg1.2.2.2 hany

theorem drag_ok_true {g : Grid} {d : Dir} {picks : List Point} {vals : List Nat} {g2 : Grid}
    (h : Grid.drag g d picks vals = .ok (true, g2)) :
    ∃ g3, (dragMoves { g with attempt := g.attempt + 1 } d).1 = true ∧
      Grid.seed { (dragMoves { g with attempt := g.attempt + 1 } d).2 with
        cycle := (dragMoves { g with attempt := g.attempt + 1 } d).2.cycle + 1 } 1 picks vals =
          .ok g3 ∧
      g2 = { g3 with
        locks := fun q => if q.x < g3.side ∧ q.y < g3.side then false else g3.locks q } := by
  simp only [Grid.drag] at h
  split at h
  · rename_i hmoved
    split at h
    · cases h
    · rename_i g3 hseed
      injection h with h
      injection h with h1 h2
      exact ⟨g3, hmoved, hseed, h2.symm⟩
  · cases h

theorem drag_ok_false {g : Grid} {d : Dir} {picks : List Point} {vals : List Nat} {g2 : Grid}
    (h : Grid.drag g d picks vals = .ok (false, g2)) :
    (dragMoves { g with attempt := g.attempt + 1 } d).1 = false ∧
      g2 = (dragMoves { g with attempt := g.attempt + 1 } d).2 := by
  simp only [Grid.drag] at h
  split at h
  · rename_i hmoved
    split at h
    · cases h
    · injection h with h
      injection h with h1 h2
      cases h1
  · rename_i hmoved
    injection h with h
    injection h with h1 h2
    refine ⟨by simpa using hmoved, h2.symm⟩

theorem drag_inv {g : Grid} {d : Dir} {picks : List Point} {vals : List Nat} {b : Bool}
    {g2 : Grid} (h : Grid.drag g d picks vals = .ok (b, g2)) (hg : Inv g) : Inv g2 := by
  obtain ⟨hgNH, hghist⟩ := hg
  have hg0NH : InvNH { g with attempt := g.attempt + 1 } := hgNH
  have hmNH : InvNH (dragMoves { g with attempt := g.attempt + 1 } d).2 :=
    dragMoves_invNH hg0NH
  obtain ⟨hms, hmh, -, -⟩ := dragMoves_frame { g with attempt := g.attempt + 1 } d
  have hside : (dragMoves { g with attempt := g.attempt + 1 } d).2.side = g.side := hms
  cases b with
  | false =>
    obtain ⟨-, hg2⟩ := drag_ok_false h
    subst hg2
    refine ⟨hmNH, ?_⟩
    intro s hs
    rw [hmh] at hs
    exact hside.symm ▸ hghist s hs
  | true =>
    obtain ⟨g3, -, hseed, hg2⟩ := drag_ok_true h
    have hmid : Inv { (dragMoves { g with attempt := g.attempt + 1 } d).2 with
        cycle := (dragMoves { g with attempt := g.attempt + 1 } d).2.cycle + 1 } := by
      refine ⟨hmNH, ?_⟩
      intro s hs
      rw [hmh] at hs
      exact hside.symm ▸ hghist s hs
    have hg3 := seed_inv hseed hmid
    subst hg2
    exact ⟨hg3.1, hg3.2⟩

theorem updateWithSnapshot_ok {g : Grid} {s : Snapshot} {g2 : Grid}
    (h : Grid.updateWithSnapshot g s = .ok g2) :
    s.any (fun pv => pv.2 != 0) = true ∧ updateLoop g s = .ok g2 := by
  unfold Grid.updateWithSnapshot checkSnapshot at h
  by_cases hC : s.any (fun pv => pv.2 != 0) = true
  · rw [if_pos hC] at h
    exact ⟨hC, h⟩
  · rw [if_neg hC] at h
    cases h

theorem updateWithSnapshot_eq {g : Grid} {s : Snapshot}
    (hC : s.any (fun pv => pv.2 != 0) = true) :
    Grid.updateWithSnapshot g s = updateLoop g s := by
  unfold Grid.updateWithSnapshot checkSnapshot
  rw [if_pos hC]

theorem updateWithSnapshot_inv {g : Grid} {s : Snapshot} {g2 : Grid}
    (h : Grid.updateWithSnapshot g s = .ok g2) (hg : Inv g) : Inv g2 := by
  obtain ⟨hC, hloop⟩ := updateWithSnapshot_ok h
  obtain ⟨h1, h2, -⟩ := updateLoop_frame _ _ _ hloop
  refine ⟨updateLoop_invNH _ _ _ hloop hg.1, ?_⟩
  intro s2 hs2
  rw [h2] at hs2
  exact h1.symm ▸ hg.2 s2 hs2

theorem undo_ok_true {g g2 : Grid} {ie : Bool} (h : Grid.undo g ie = .ok (true, g2)) :
    ¬g.history.length < 2 ∧
      Grid.updateWithSnapshot { g with history := g.history.dropLast }
        (g.history.dropLast.getLastD []) = .ok g2 := by
  unfold Grid.undo at h
  split at h
  · split at h
    · injection h with h
      injection h with h1 h2
      cases h1
    · cases h
  · rename_i hlen
    split at h
    · cases h
    · rename_i g3 hupd
      injection h with h
      injection h with h1 h2
      subst h2
      exact ⟨hlen, hupd⟩

theorem undo_ok_false {g g2 : Grid} {ie : Bool} (h : Grid.undo g ie = .ok (false, g2)) :
    g.history.length < 2 ∧ ie = true ∧ g2 = g := by
  unfold Grid.undo at h
  split at h
  · rename_i hlen
    split at h
    · rename_i hie
      injection h with h
      injection h with h1 h2
      exact ⟨hlen, hie, h2.symm⟩
    · cases h
  · split at h
    · cases h
    · injection h with h
      injection h with h1 h2
      cases h1

theorem undo_inv {g g2 : Grid} {ie b : Bool} (h : Grid.undo g ie = .ok (b, g2))
    (hg : Inv g) : Inv g2 := by
  cases b with
  | false =>
    obtain ⟨-, -, hg2⟩ := undo_ok_false h
    subst hg2
    exact hg
  | true =>
    obtain ⟨-, hupd⟩ := undo_ok_true h
    refine updateWithSnapshot_inv hupd ⟨hg.1, ?_⟩
    intro s hs
    exact hg.2 s (List.mem_of_mem_dropLast hs)

theorem unlockSetFold_frame (v : Point → Nat) :
    ∀ (l : List Point) (g : Grid),
      ((l.foldl (fun acc p =>
        setCell { acc with locks := fun q => if q = p then false else acc.locks q } p (v p))
          g).side = g.side) ∧
      (l.foldl (fun acc p =>
        setCell { acc with locks := fun q => if q = p then false else acc.locks q } p (v p))
          g).history = g.history := by
  intro l
  induction l with
  | nil =>
    intro g
    exact ⟨rfl, rfl⟩
  | cons p rest ih =>
    intro g
    rw [List.foldl_cons]
    obtain ⟨i1, i2⟩ := ih (setCell { g with locks := fun q => if q = p then false else g.locks q }
      p (v p))
    exact ⟨i1.trans (setCell_side _ _ _), i2.trans (setCell_history _ _ _)⟩

theorem unlockSetFold_invNH (v : Point → Nat) :
    ∀ (l : List Point) (g : Grid),
      (∀ p ∈ l, p ∈ allPoints g.side ∧ either0Power2 (v p) = true) → InvNH g →
      InvNH (l.foldl (fun acc p =>
        setCell { acc with locks := fun q => if q = p then false else acc.locks q } p (v p)) g) := by
  intro l
  induction l with
  | nil =>
    intro g _ hg
    exact hg
  | cons p rest ih =>
    intro g hmem hg
    rw [List.foldl_cons]
    obtain ⟨hs, hn, hc, hval⟩ := hg
    obtain ⟨hpm, hpv⟩ := hmem p (List.mem_cons_self _ _)
    refine ih _ ?_ ?_
    · intro p2 hp2
      rw [setCell_side]
      exact hmem p2 (List.mem_cons_of_mem _ hp2)
    · refine ⟨?_, setCell_nodup hn, setCell_cache hc hpm, setCell_valid hval hpv⟩
      rw [setCell_side]
      exact hs

theorem reset_inv {g : Grid} (hg : Inv g) : Inv (Grid.reset g) := by
  constructor
  · exact unlockSetFold_invNH (fun _ => 0) (allPoints g.side)
      { g with attempt := 0, cycle := 0, score := 0 }
      (fun p hp => ⟨hp, show either0Power2 0 = true by decide⟩) hg.1
  · intro s hs
    exact absurd hs (List.not_mem_nil _)

theorem reset_history (g : Grid) : (Grid.reset g).history = [] := rfl

theorem autofillOnce_ok {g g2 : Grid} {v : Point → Nat} (h : autofillOnce g v = .ok g2) :
    (∀ p ∈ allPoints g.side, v p ∈ AUTO_NUMBERS) ∧
      g2 = (allPoints g.side).foldl (fun acc p =>
        setCell { acc with locks := fun q => if q = p then false else acc.locks q } p (v p)) g := by
  unfold autofillOnce at h
  split at h
  · rename_i hv
    injection h with h
    exact ⟨hv, h.symm⟩
  · cases h

theorem autofillOnce_props {g g2 : Grid} {v : Point → Nat} (h : autofillOnce g v = .ok g2)
    (hg : InvNH g) : InvNH g2 ∧ g2.side = g.side ∧ g2.history = g.history := by
  obtain ⟨hv, hg2⟩ := autofillOnce_ok h
  subst hg2
  exact ⟨unlockSetFold_invNH v _ _ (fun p hp => ⟨hp, autoNumbers_valid _ (hv p hp)⟩) hg,
    (unlockSetFold_frame v _ _).1, (unlockSetFold_frame v _ _).2⟩

theorem autofillWhile_props :
    ∀ (l : List (Point → Nat)) (g g2 : Grid), autofillWhile l g = .ok g2 →
      InvNH g → InvNH g2 ∧ g2.side = g.side ∧ g2.history = g.history := by
  intro l
  induction l with
  | nil =>
    intro g g2 h hg
    unfold autofillWhile at h
    split at h
    · injection h with h
      subst h
      exact ⟨hg, rfl, rfl⟩
    · cases h
  | cons v vs ih =>
    intro g g2 h hg
    unfold autofillWhile at h
    split at h
    · injection h with h
      subst h
      exact ⟨hg, rfl, rfl⟩
    · split at h
      · cases h
      · rename_i g1 honce
        obtain ⟨h1, h2, h3⟩ := autofillOnce_props honce hg
        obtain ⟨i1, i2, i3⟩ := ih _ _ h h1
        exact ⟨i1, i2.trans h2, i3.trans h3⟩

theorem autofill_ok {g g2 : Grid} {nj : Bool} {oracles : List (Point → Nat)}
    (h : Grid.autofill g nj oracles = .ok g2) (hg : InvNH g) :
    ∃ gw, InvNH gw ∧ gw.side = g.side ∧ gw.history = g.history ∧
      (boardSnapshot gw).any (fun pv => pv.2 != 0) = true ∧
      g2 = { gw with history := gw.history ++ [boardSnapshot gw] } := by
  cases oracles with
  | nil =>
    unfold Grid.autofill at h
    cases h
  | cons v vs =>
    unfold Grid.autofill at h
    dsimp only at h
    split at h
    · cases h
    · rename_i g1 honce
      split at h
      · cases h
      · rename_i gw hwhile
        obtain ⟨h1, h2, h3⟩ := autofillOnce_props honce hg
        have hwprops : InvNH gw ∧ gw.side = g1.side ∧ gw.history = g1.history := by
          cases nj with
          | true =>
            rw [if_pos rfl] at hwhile
            exact autofillWhile_props _ _ _ hwhile h1
          | false =>
            rw [if_neg (by simp)] at hwhile
            injection hwhile with hwhile
            subst hwhile
            exact ⟨h1, rfl, rfl⟩
        obtain ⟨hany, hg2⟩ := storeSnapshot_none_ok h
        exact ⟨gw, hwprops.1, hwprops.2.1.trans h2, hwprops.2.2.trans h3, hany, hg2⟩

theorem autofill_inv {g g2 : Grid} {nj : Bool} {oracles : List (Point → Nat)}
    (h : Grid.autofill g nj oracles = .ok g2) (hg : Inv g) : Inv g2 := by
  obtain ⟨gw, hwNH, hwside, hwhist, hany, hg2⟩ := autofill_ok h hg.1
  subst hg2
  refine ⟨hwNH, ?_⟩
  intro s hs
  rw [List.mem_append] at hs
  rcases hs with hs | hs
  · rw [hwhist] at hs
    exact hwside.symm ▸ hg.2 s hs
  · rw [List.mem_singleton] at hs
    subst hs
    exact snapWF_board hwNH.2.2.2 hany

theorem initCore_inv {side : Nat} (h2 : 2 ≤ side) : Inv (initCore side) := by
  refine ⟨⟨h2, allPoints_nodup side, ⟨?_, ?_⟩, ?_⟩, ?_⟩
  · intro p hp
    exact ⟨hp, rfl⟩
  · intro p hp _
    exact hp
  · intro p _
    show either0Power2 0 = true
    decide
  · intro s hs
    exact absurd hs (List.not_mem_nil _)

theorem initCore_not_jammed {side : Nat} (h2 : 2 ≤ side) :
    Grid.isJammed (initCore side) = false := by
  unfold Grid.isJammed
  rw [if_pos ?_]
  show (initCore side).emptyCells.length ≠ 0
  show (allPoints side).length ≠ 0
  rw [allPoints_length]
  positivity

theorem init_ok {side : Nat} {oracles : List (Point → Nat)} {g : Grid}
    (h : Grid.init side oracles = .ok g) : 2 ≤ side ∧ g = initCore side := by
  simp only [Grid.init] at h
  rw [if_neg (by decide)] at h
  split at h
  · cases h
  · split at h
    · cases h
    · rename_i hsz hside
      have h2 : 2 ≤ side := by omega
      rw [if_neg (by rw [initCore_not_jammed h2]; exact Bool.false_ne_true)] at h
      injection h with h
      exact ⟨h2, h.symm⟩

theorem init_inv {side : Nat} {oracles : List (Point → Nat)} {g : Grid}
    (h : Grid.init side oracles = .ok g) : Inv g := by
  obtain ⟨h2, hg⟩ := init_ok h
  subst hg
  exact initCore_inv h2

theorem newFromSnapshot_ok {s : Snapshot} {g2 : Grid} (h : Grid.newFromSnapshot s = .ok g2) :
    (s.map Prod.fst).Nodup ∧ intSqrt s.length * intSqrt s.length = s.length ∧
    ∃ g1, Grid.updateWithSnapshot (initCore (intSqrt s.length)) s = .ok g1 ∧
      2 ≤ intSqrt s.length ∧
      s.any (fun pv => pv.2 != 0) = true ∧ g2 = { g1 with history := g1.history ++ [s] } := by
  unfold Grid.newFromSnapshot at h
  split at h
  · rename_i hnd
    split at h
    · rename_i hsq
      split at h
      · cases h
      · rename_i g hinit
        obtain ⟨h2, hic⟩ := init_ok hinit
        subst hic
        split at h
        · cases h
        · rename_i g1 hupd
          obtain ⟨hany, hg2⟩ := storeSnapshot_some_ok h
          exact ⟨hnd, hsq, g1, hupd, h2, hany, hg2⟩
    · cases h
  · cases h

theorem newFromSnapshot_inv {s : Snapshot} {g2 : Grid}
    (h : Grid.newFromSnapshot s = .ok g2) : Inv g2 := by
  obtain ⟨hnd, hsq, g1, hupd, h2, hany, hg2⟩ := newFromSnapshot_ok h
  have hg1 := updateWithSnapshot_inv hupd (initCore_inv h2)
  obtain ⟨hC, hloop⟩ := updateWithSnapshot_ok hupd
  obtain ⟨hside, hhist, -⟩ := updateLoop_frame _ _ _ hloop
  have hinputs := updateLoop_inputs _ _ _ hloop
  subst hg2
  refine ⟨hg1.1, ?_⟩
  intro s2 hs2
  rw [List.mem_append, hhist] at hs2
  rcases hs2 with hs2 | hs2
  · exact absurd hs2 (List.not_mem_nil _)
  · rw [List.mem_singleton] at hs2
    subst hs2
    have hsub : s2.map Prod.fst ⊆ allPoints (intSqrt s2.length) := by
      intro k hk
      rw [List.mem_map] at hk
      obtain ⟨pv, hpv, rfl⟩ := hk
      exact mem_allPoints.mpr (hinputs pv hpv).1
    have hlen : (allPoints (intSqrt s2.length)).length ≤ (s2.map Prod.fst).length := by
      rw [allPoints_length, List.length_map, hsq]
    have hperm := (List.Nodup.subperm hnd hsub).perm_of_length_le hlen
    refine hside.symm ▸ (?_ : SnapWF (intSqrt s2.length) s2)
    refine ⟨hperm, ?_, fun pv hpv => (hinputs pv hpv).2⟩
    rw [List.any_eq_true] at hany
    obtain ⟨pv, hpv, hne⟩ := hany
    exact ⟨pv, hpv, by simpa using hne⟩

theorem reachable_inv {g : Grid} (h : Reachable g) : Inv g := by
  induction h with
  | init side oracles g h => exact init_inv h
  | newFromSnapshot s g h => exact newFromSnapshot_inv h
  | drag g d picks vals b g2 _ h ih => exact drag_inv h ih
  | seed g amount picks vals g2 _ h ih => exact seed_inv h ih
  | undo g ie b g2 _ h ih => exact undo_inv h ih
  | reset g _ ih => exact reset_inv ih
  | autofill g nj oracles g2 _ h ih => exact autofill_inv h ih
  | updateWithSnapshot g s g2 _ h ih => exact updateWithSnapshot_inv h ih

/-! ### Claim theorems -/

/-- C1: for every cell `c` and direction `d`, `_pivot(c, d)` returns a Cell
(never nothing): walking neighbors from `c` in direction `d` while tracking
the last empty cell seen, it returns, in priority order, the nearest
non-empty unlocked cell whose number equals `c.number` if it is reached
before any other non-empty cell blocks the path; otherwise the farthest
empty cell reached; otherwise `c` itself when no movement is possible.
`pivotSpec` is that priority-order description transcribed from the claim. -/
theorem pivot_is_some_pivotSpec (g : Grid) (c : Point) (d : Dir)
    (hx : c.x < g.side) (hy : c.y < g.side) :
    pivot g c d = some (pivotSpec g c d) :=
  pivotAux_eq_spec g d (g.numbers c) g.side c (rayAux_length_lt hx hy)

theorem pivot_is_some_pivotSpec_witness :
    pivot gridJammed ⟨0, 0⟩ .right = some (pivotSpec gridJammed ⟨0, 0⟩ .right) :=
  pivot_is_some_pivotSpec gridJammed ⟨0, 0⟩ .right (by decide) (by decide)

/-- C3: whenever `drag` returns false it has incremented `attempt` by 1 and
left everything else unchanged: `cycle`, `score`, `history` (no snapshot
recorded), every cell's number, every cell's lock flag (no unlocking), and
the `empty_cells` cache. -/
theorem drag_false_frame {g : Grid} {d : Dir} {picks : List Point} {vals : List Nat}
    {g2 : Grid} (h : Grid.drag g d picks vals = .ok (false, g2)) :
    g2.cycle = g.cycle ∧ g2.score = g.score ∧ g2.history = g.history ∧
      (∀ p, g2.numbers p = g.numbers p) ∧ (∀ p, g2.locks p = g.locks p) ∧
      g2.emptyCells = g.emptyCells ∧ g2.attempt = g.attempt + 1 := by
  obtain ⟨hf, hg2⟩ := drag_ok_false h
  obtain ⟨-, h2⟩ := dragFold_false _ _ _ hf
  have h3 : (dragMoves { g with attempt := g.attempt + 1 } d).2 =
      { g with attempt := g.attempt + 1 } := h2
  rw [h3] at hg2
  subst hg2
  exact ⟨rfl, rfl, rfl, fun p => rfl, fun p => rfl, rfl, rfl⟩

theorem drag_false_frame_witness :
    gridTwoAttempt.cycle = gridTwo.cycle ∧ gridTwoAttempt.score = gridTwo.score ∧
      gridTwoAttempt.history = gridTwo.history ∧
      (∀ p, gridTwoAttempt.numbers p = gridTwo.numbers p) ∧
      (∀ p, gridTwoAttempt.locks p = gridTwo.locks p) ∧
      gridTwoAttempt.emptyCells = gridTwo.emptyCells ∧
      gridTwoAttempt.attempt = gridTwo.attempt + 1 :=
  drag_false_frame
    (show Grid.drag gridTwo .left [] [] = .ok (false, gridTwoAttempt) from rfl)

/-- C4: in every state reachable through the public operations, the
`empty_cells` cache is a duplicate-free set holding exactly the cells whose
number is 0. -/
theorem emptyCells_exact {g : Grid} (h : Reachable g) :
    g.emptyCells.Nodup ∧
      ∀ p, p ∈ g.emptyCells ↔ p ∈ allPoints g.side ∧ g.numbers p = 0 := by
  obtain ⟨⟨-, hnd, ⟨hc1, hc2⟩, -⟩, -⟩ := reachable_inv h
  exact ⟨hnd, fun p => ⟨fun hp => hc1 p hp, fun hp => hc2 p hp.1 hp.2⟩⟩

theorem emptyCells_exact_witness :
    gridTwo.emptyCells.Nodup ∧
      ∀ p, p ∈ gridTwo.emptyCells ↔ p ∈ allPoints gridTwo.side ∧ gridTwo.numbers p = 0 :=
  emptyCells_exact (Reachable.init 2 [] gridTwo rfl)

/-- C8 counterexample: immediately after `Grid(4)` completes, the history is
empty, refuting the claim that it is non-empty after every construction. -/
theorem history_after_init_empty :
    Grid.init 4 [] = .ok gridFour ∧ gridFour.history = [] :=
  ⟨rfl, rfl⟩

/-- C8 (amended): the history is non-empty immediately after
`Grid.new_from_snapshot`, while plain `Grid(side)` construction leaves it
empty (no snapshot is stored so an empty board cannot be "undone" to). -/
theorem history_after_construction {s : Snapshot} {g : Grid} {side : Nat}
    {oracles : List (Point → Nat)} {g2 : Grid}
    (h1 : Grid.newFromSnapshot s = .ok g) (h2 : Grid.init side oracles = .ok g2) :
    g.history ≠ [] ∧ g2.history = [] := by
  constructor
  · obtain ⟨-, -, g1, -, -, -, hg⟩ := newFromSnapshot_ok h1
    subst hg
    simp
  · obtain ⟨-, hg⟩ := init_ok h2
    subst hg
    rfl

theorem history_after_construction_witness :
    gridFromSnap.history ≠ [] ∧ gridFour.history = [] :=
  history_after_construction
    (show Grid.newFromSnapshot snapOne = .ok gridFromSnap from rfl)
    (show Grid.init 4 [] = .ok gridFour from rfl)

/-- C10: `seed(0)` raises `Base2048Error` on every grid, even when the
precondition `amount ≤ number of empty cells` holds: seeding zero cells is
never a silent no-op ("Seeding didn't change the number of any Cell"). -/
theorem seed_zero_errors (g : Grid) : Grid.seed g 0 [] [] = .error .base2048 := rfl

theorem filter_eq_singleton {α : Type} {l : List α} {pred : α → Bool} {a : α}
    (hnd : l.Nodup) (ha : a ∈ l) (hpa : pred a = true)
    (huniq : ∀ b ∈ l, pred b = true → b = a) : l.filter pred = [a] := by
  induction l with
  | nil => cases ha
  | cons x xs ih =>
    rw [List.nodup_cons] at hnd
    rcases List.mem_cons.mp ha with rfl | ha2
    · rw [List.filter_cons_of_pos hpa]
      have hrest : xs.filter pred = [] := by
        rw [List.filter_eq_nil_iff]
        intro b hb hpb
        have hba := huniq b (List.mem_cons_of_mem _ hb) hpb
        subst hba
        exact hnd.1 hb
      rw [hrest]
    · have hx : pred x = false := by
        by_contra hcon
        have hxa : x = a := huniq x (List.mem_cons_self _ _) (by simpa using hcon)
        subst hxa
        exact hnd.1 ha2
      rw [List.filter_cons_of_neg (by simp [hx])]
      exact ih hnd.2 ha2 (fun b hb hpb => huniq b (List.mem_cons_of_mem _ hb) hpb)

/-- C7 counterexample: on a 2×2 grid, the range selection
`[slice(0,1), slice(0,1)]` (both axes ranges, not a concrete pair) matches
exactly the point (0,0) and `__getitem__` returns the bare element, not a
one-element sequence — refuting "any other selection returns an ordered
sequence". -/
theorem getitem_single_range_returns_one :
    getItem gridJammed (Axis.slc (some 0) (some 1) none) (Axis.slc (some 0) (some 1) none) =
      .ok (.one (⟨0, 0⟩, 2)) ∧
    ∀ vs, GetResult.one (⟨0, 0⟩, 2) ≠ GetResult.many vs := by
  constructor
  · rfl
  · intro vs h
    cases h

/-- C7 (amended): a selection matching no points fails with `KeyError`; a
selection matching exactly one point returns that bare element (whether the
axes are concrete integers or ranges); a selection matching two or more
points returns the sequence of matching elements in x-ascending then
y-ascending order; in particular a concrete in-range `(x, y)` pair returns
the one element at that point. -/
theorem getitem_cases (g : Grid) (kx ky : Axis) :
    (selectKeys g.side kx ky = [] → getItem g kx ky = .error .keyError) ∧
    (∀ p, selectKeys g.side kx ky = [p] → getItem g kx ky = .ok (.one (p, g.numbers p))) ∧
    (∀ p q rest, selectKeys g.side kx ky = p :: q :: rest →
      getItem g kx ky = .ok (.many ((p :: q :: rest).map (fun r => (r, g.numbers r)))) ∧
      (p :: q :: rest).Pairwise ptLt) ∧
    (∀ x y, x < g.side → y < g.side →
      getItem g (Axis.nat x) (Axis.nat y) = .ok (.one (⟨x, y⟩, g.numbers ⟨x, y⟩))) := by
  refine ⟨?_, ?_, ?_, ?_⟩
  · intro hsel
    unfold getItem
    rw [hsel]
  · intro p hsel
    unfold getItem
    rw [hsel]
  · intro p q rest hsel
    constructor
    · unfold getItem
      rw [hsel]
    · have hpw : (selectKeys g.side kx ky).Pairwise ptLt :=
        (allPoints_pairwise g.side).filter _
      rw [hsel] at hpw
      exact hpw
  · intro x y hx hy
    have hsel : selectKeys g.side (Axis.nat x) (Axis.nat y) = [⟨x, y⟩] := by
      unfold selectKeys
      refine filter_eq_singleton (allPoints_nodup g.side) (mem_allPoints.mpr ⟨hx, hy⟩) ?_ ?_
      · simp [axisMatch]
      · intro b _ hpb
        simp only [axisMatch, Bool.and_eq_true, beq_iff_eq] at hpb
        obtain ⟨h1, h2⟩ := hpb
        cases b
        simp_all
    unfold getItem
    rw [hsel]

theorem getitem_cases_witness :
    getItem gridJammed (Axis.nat 0) (Axis.nat 1) = .ok (.one (⟨0, 1⟩, 4)) := by
  have h := (getitem_cases gridJammed (Axis.nat 0) (Axis.nat 1)).2.2.2 0 1
    (by decide) (by decide)
  simpa using h

/-- C5: `is_jammed` is true iff the board has no empty cell and no two
orthogonally adjacent cells share a number; in particular any grid with an
empty cell is not jammed.  The hypothesis is the `empty_cells` cache
coherence that C4 establishes for every reachable grid. -/
theorem is_jammed_iff {g : Grid} (hcache : CacheCoherent g) :
    (Grid.isJammed g = true ↔
      (∀ p ∈ allPoints g.side, g.numbers p ≠ 0) ∧
      (∀ p ∈ allPoints g.side, ∀ d : Dir, ∀ q, neighbor g p d = some q →
        g.numbers p ≠ g.numbers q)) ∧
    (∀ p ∈ allPoints g.side, g.numbers p = 0 → Grid.isJammed g = false) := by
  have hempty : g.emptyCells = [] ↔ ∀ p ∈ allPoints g.side, g.numbers p ≠ 0 := by
    constructor
    · intro he p hp hz
      have hm := hcache.2 p hp hz
      rw [he] at hm
      cases hm
    · intro hall
      cases hE : g.emptyCells with
      | nil => rfl
      | cons a l =>
        have hm := hcache.1 a (by rw [hE]; exact List.mem_cons_self _ _)
        exact absurd hm.2 (hall a hm.1)
  have hscan : ((allPoints g.side).all (fun p =>
      [Dir.up, Dir.left, Dir.down, Dir.right].all (fun d =>
        match neighbor g p d with
        | none => true
        | some q => g.numbers p != g.numbers q)) = true) ↔
      (∀ p ∈ allPoints g.side, ∀ d : Dir, ∀ q, neighbor g p d = some q →
        g.numbers p ≠ g.numbers q) := by
    rw [List.all_eq_true]
    constructor
    · intro hall p hp d q hq
      have h2 := hall p hp
      rw [List.all_eq_true] at h2
      have h3 := h2 d (by cases d <;> simp)
      rw [hq] at h3
      exact bne_iff_ne.mp h3
    · intro hall p hp
      rw [List.all_eq_true]
      intro d _
      cases hq : neighbor g p d with
      | none => rfl
      | some q =>
        show (g.numbers p != g.numbers q) = true
        exact bne_iff_ne.mpr (hall p hp d q hq)
  unfold Grid.isJammed
  by_cases hlen : g.emptyCells.length ≠ 0
  · rw [if_pos hlen]
    constructor
    · constructor
      · intro hfalse
        cases hfalse
      · rintro ⟨hno, -⟩
        rw [hempty.mpr hno] at hlen
        simp at hlen
    · intro p _ _
      rfl
  · rw [if_neg hlen]
    push_neg at hlen
    have hnil : g.emptyCells = [] := List.length_eq_zero.mp hlen
    constructor
    · rw [hscan]
      constructor
      · intro hs
        exact ⟨hempty.mp hnil, hs⟩
      · rintro ⟨-, hs⟩
        exact hs
    · intro p hp h0
      exact absurd h0 (hempty.mp hnil p hp)

theorem is_jammed_iff_witness :
    Grid.isJammed gridJammed = true ∧
      (∀ p ∈ allPoints gridJammed.side, gridJammed.numbers p ≠ 0) ∧
      (∀ p ∈ allPoints gridJammed.side, ∀ d : Dir, ∀ q, neighbor gridJammed p d = some q →
        gridJammed.numbers p ≠ gridJammed.numbers q) := by
  have h := (is_jammed_iff (g := gridJammed) (by decide)).1
  refine ⟨by decide, h.mp (by decide)⟩

/-- C6: `seed(amount)` with `amount` exceeding the number of empty cells
fails (the `random.sample` `ValueError`), and a `seed` call that returns
normally always changed some cell's number from 0 to non-zero: "seeding
changed nothing" is an error, never a silent no-op. -/
theorem seed_overflow_errors {g : Grid} {amount : Nat} {picks : List Point} {vals : List Nat}
    (h : g.emptyCells.length < amount) :
    (∃ e, Grid.seed g amount picks vals = .error e) ∧
    (∀ a p v g2, Grid.seed g a p v = .ok g2 →
      ∃ pt, g.numbers pt = 0 ∧ g2.numbers pt ≠ 0) := by
  constructor
  · refine ⟨.valueError, ?_⟩
    unfold Grid.seed
    rw [if_pos h]
  · intro a p v g2 hok
    obtain ⟨-, ⟨hplen, hpnd, -⟩, ⟨hvlen, hvmem⟩, hne, g1, hloop, -, hg2eq⟩ := seed_ok hok
    cases hp : p with
    | nil => exact absurd hp hne
    | cons p0 rest =>
      subst hp
      cases hv : v with
      | nil =>
        subst hv
        rw [← hplen] at hvlen
        simp at hvlen
      | cons v0 vrest =>
        subst hv
        rw [List.zip_cons_cons] at hloop
        have hnd0 : p0 ∉ (rest.zip vrest).map Prod.fst := by
          intro hmem
          rw [List.mem_map] at hmem
          obtain ⟨pv, hpv, hfst⟩ := hmem
          have hp0 : p0 ∈ rest := by
            obtain ⟨a1, b1⟩ := pv
            cases hfst
            exact (List.of_mem_zip hpv).1
          exact (List.nodup_cons.mp hpnd).1 hp0
        obtain ⟨hz, hset⟩ := seedLoop_sets_head hloop hnd0
        refine ⟨p0, hz, ?_⟩
        rw [hg2eq]
        show g1.numbers p0 ≠ 0
        rw [hset]
        have hv0 : v0 = 2 ∨ v0 = 4 := by
          have h2 := hvmem v0 (List.mem_cons_self _ _)
          simpa [SEEDING_VALUES] using h2
        rcases hv0 with rfl | rfl
        · decide
        · decide

theorem seed_overflow_errors_witness :
    (∃ e, Grid.seed gridTwo 5 [] [] = .error e) ∧
    (∀ a p v g2, Grid.seed gridTwo a p v = .ok g2 →
      ∃ pt, gridTwo.numbers pt = 0 ∧ g2.numbers pt ≠ 0) :=
  seed_overflow_errors (by decide)

theorem getLastD_mem {α : Type} : ∀ (l : List α), l ≠ [] → ∀ d : α, l.getLastD d ∈ l := by
  intro l
  induction l with
  | nil =>
    intro h
    exact absurd rfl h
  | cons a as ih =>
    intro _ d
    rw [List.getLastD_cons]
    by_cases has : as = []
    · subst has
      exact List.mem_cons_self _ _
    · exact List.mem_cons_of_mem _ (ih has a)

/-- C9: on any reachable grid whose history holds at least 2 snapshots,
`undo()` returns true and leaves `score`, `attempt` and `cycle` unchanged;
it restores only cell numbers, clears every lock flag, and shortens the
history by one — no counter is rolled back. -/
theorem undo_two_snapshots {g : Grid} (hr : Reachable g) (hlen : 2 ≤ g.history.length) :
    ∃ g2, Grid.undo g true = .ok (true, g2) ∧
      g2.score = g.score ∧ g2.attempt = g.attempt ∧ g2.cycle = g.cycle ∧
      g2.history = g.history.dropLast ∧
      ∀ p ∈ allPoints g.side, g2.locks p = false := by
  obtain ⟨hNH, hhist⟩ := reachable_inv hr
  have hdl : g.history.dropLast ≠ [] := by
    have hld := List.length_dropLast g.history
    intro hnil
    rw [hnil] at hld
    simp at hld
    omega
  have hsmem : g.history.dropLast.getLastD [] ∈ g.history :=
    List.mem_of_mem_dropLast (getLastD_mem _ hdl [])
  obtain ⟨hperm, hanyex, hvalid⟩ := hhist _ hsmem
  have hany : (g.history.dropLast.getLastD []).any (fun pv => pv.2 != 0) = true := by
    rw [List.any_eq_true]
    obtain ⟨pv, hpv, hne⟩ := hanyex
    exact ⟨pv, hpv, by simpa using hne⟩
  have hcond : ∀ pv ∈ g.history.dropLast.getLastD [],
      (pv.1.x < ({ g with history := g.history.dropLast } : Grid).side ∧
        pv.1.y < ({ g with history := g.history.dropLast } : Grid).side) ∧
      either0Power2 pv.2 = true := by
    intro pv hpv
    refine ⟨?_, hvalid pv hpv⟩
    have hk : pv.1 ∈ (g.history.dropLast.getLastD []).map Prod.fst :=
      List.mem_map_of_mem _ hpv
    have hk2 : pv.1 ∈ allPoints g.side := hperm.mem_iff.mp hk
    exact mem_allPoints.mp hk2
  obtain ⟨g2, hloop⟩ := updateLoop_ok _ _ hcond
  have hupd : Grid.updateWithSnapshot { g with history := g.history.dropLast }
      (g.history.dropLast.getLastD []) = .ok g2 := by
    rw [updateWithSnapshot_eq hany]
    exact hloop
  have hundo : Grid.undo g true = .ok (true, g2) := by
    unfold Grid.undo
    rw [if_neg (by omega), hupd]
  obtain ⟨hside, hhist2, hatt, hcyc, hscore⟩ := updateLoop_frame _ _ _ hloop
  refine ⟨g2, hundo, hscore, hatt, hcyc, hhist2, ?_⟩
  have hkeysnd : ((g.history.dropLast.getLastD []).map Prod.fst).Nodup :=
    (hperm.nodup_iff).mpr (allPoints_nodup _)
  obtain ⟨hmempart, -⟩ := updateLoop_numbers _ _ _ hkeysnd hloop
  intro p hp
  have hk : p ∈ (g.history.dropLast.getLastD []).map Prod.fst := hperm.mem_iff.mpr hp
  rw [List.mem_map] at hk
  obtain ⟨pv, hpv, hfst⟩ := hk
  have hlock := (hmempart pv hpv).2
  rw [hfst] at hlock
  exact hlock

theorem undo_two_snapshots_witness :
    ∃ g2, Grid.undo gridTwoHistory true = .ok (true, g2) ∧
      g2.score = gridTwoHistory.score ∧ g2.attempt = gridTwoHistory.attempt ∧
      g2.cycle = gridTwoHistory.cycle ∧
      g2.history = gridTwoHistory.history.dropLast ∧
      ∀ p ∈ allPoints gridTwoHistory.side, g2.locks p = false := by
  have hr : Reachable gridTwoHistory :=
    Reachable.seed gridSeeded 1 [⟨0, 1⟩] [4] gridTwoHistory
      (Reachable.seed gridTwo 2 [⟨0, 0⟩, ⟨1, 1⟩] [2, 2] gridSeeded
        (Reachable.init 2 [] gridTwo rfl) rfl)
      rfl
  exact undo_two_snapshots hr (by decide)

/-- C2 counterexample: on a grid loaded through `update_with_snapshot` (which
stores no snapshot, so the history is empty), `drag` returns true but the
immediate `undo()` returns false — refuting the claim for every grid. -/
theorem drag_then_undo_fails :
    Grid.drag gridDesynced .right [⟨0, 0⟩] [2] = .ok (true, gridDesyncedDragged) ∧
    Grid.undo gridDesyncedDragged true = .ok (false, gridDesyncedDragged) :=
  ⟨rfl, rfl⟩

/-- C2 (amended): for every grid whose cell numbers are `Cell`-legal (0 or a
power of two, as in every Python grid) and whose non-empty history ends with
a snapshot of the current board — as after any snapshot-storing operation —
if `drag(d)` returns true then an immediate `undo()` returns true and
restores every cell's number to its pre-drag value (the drag-seeded tile
disappears with the rest of the drag's changes). -/
theorem drag_undo_restores {g : Grid} {d : Dir} {picks : List Point} {vals : List Nat}
    {g2 : Grid}
    (hvalid : ∀ p ∈ allPoints g.side, either0Power2 (g.numbers p) = true)
    (hsync : g.history.getLast? = some (boardSnapshot g))
    (h : Grid.drag g d picks vals = .ok (true, g2)) :
    ∃ g3, Grid.undo g2 true = .ok (true, g3) ∧
      ∀ p ∈ allPoints g.side, g3.numbers p = g.numbers p := by
  obtain ⟨gs, hmoved, hseed, hg2⟩ := drag_ok_true h
  obtain ⟨-, -, -, -, g1, hloop, -, hgseq⟩ := seed_ok hseed
  obtain ⟨hf1, hf2, -, -, -, -⟩ := seedLoop_frame _ _ _ hloop
  obtain ⟨hm1, hm2, -, -⟩ := dragMoves_frame { g with attempt := g.attempt + 1 } d
  have hside1 : g1.side = g.side := hf1.trans hm1
  have hhist1 : g1.history = g.history := hf2.trans hm2
  have hgne : g.history ≠ [] := by
    intro hnil
    rw [hnil] at hsync
    simp at hsync
  have hg2hist : g2.history = g1.history ++ [boardSnapshot g1] := by
    rw [hg2, hgseq]
  have hg2side : g2.side = g.side := by
    rw [hg2, hgseq]
    exact hside1
  have hdrop : g2.history.dropLast = g.history := by
    rw [hg2hist, List.dropLast_concat, hhist1]
  have hlast : g2.history.dropLast.getLastD [] = boardSnapshot g := by
    rw [hdrop, List.getLastD_eq_getLast?, hsync]
    rfl
  have hlen2 : ¬g2.history.length < 2 := by
    rw [hg2hist, List.length_append, hhist1]
    have hne0 : g.history.length ≠ 0 := by
      intro h0
      exact hgne (List.length_eq_zero.mp h0)
    simp only [List.length_cons, List.length_nil]
    omega
  have hany : (boardSnapshot g).any (fun pv => pv.2 != 0) = true := by
    obtain ⟨c, hc, hcn⟩ := dragFold_exists_nonzero _ _ hmoved
    rw [List.any_eq_true]
    refine ⟨(c, g.numbers c), ?_, by simpa using hcn⟩
    unfold boardSnapshot
    exact List.mem_map_of_mem _ (mem_allPoints.mpr (dragOrder_mem hc))
  have hside2 : ({ g2 with history := g2.history.dropLast } : Grid).side = g.side := hg2side
  have hcond : ∀ pv ∈ boardSnapshot g,
      (pv.1.x < ({ g2 with history := g2.history.dropLast } : Grid).side ∧
        pv.1.y < ({ g2 with history := g2.history.dropLast } : Grid).side) ∧
      either0Power2 pv.2 = true := by
    intro pv hpv
    obtain ⟨h1, h2⟩ := boardSnapshot_mem hpv
    refine ⟨?_, by rw [h2]; exact hvalid _ h1⟩
    rw [hside2]
    exact mem_allPoints.mp h1
  obtain ⟨g3, hloop2⟩ := updateLoop_ok _ _ hcond
  have hupd : Grid.updateWithSnapshot { g2 with history := g2.history.dropLast }
      (g2.history.dropLast.getLastD []) = .ok g3 := by
    rw [hlast, updateWithSnapshot_eq hany]
    exact hloop2
  have hundo : Grid.undo g2 true = .ok (true, g3) := by
    unfold Grid.undo
    rw [if_neg hlen2, hupd]
  have hkeysnd : ((boardSnapshot g).map Prod.fst).Nodup := by
    rw [boardSnapshot_keys]
    exact allPoints_nodup _
  obtain ⟨hmempart, -⟩ := updateLoop_numbers _ _ _ hkeysnd hloop2
  refine ⟨g3, hundo, ?_⟩
  intro p hp
  have hpv : (p, g.numbers p) ∈ boardSnapshot g := by
    unfold boardSnapshot
    exact List.mem_map_of_mem _ hp
  exact (hmempart _ hpv).1

theorem drag_undo_restores_witness :
    ∃ g3, Grid.undo gridSeededDragged true = .ok (true, g3) ∧
      ∀ p ∈ allPoints gridSeeded.side, g3.numbers p = gridSeeded.numbers p := by
  have h : Grid.drag gridSeeded .up [⟨0, 1⟩] [2] = .ok (true, gridSeededDragged) := rfl
  exact drag_undo_restores (by decide) (by decide) h

end Py2048
